import Mathlib

/-!
Verification development for the Sentiview dashboard: the request
controller (App.tsx handleSubmit), the two provider implementations
(services/geminiService.ts and services/apiService.ts) and their
input-normalization regular expressions, modelled over lists of
characters. JavaScript strings are modelled as List Char; the
whitespace class of JavaScript regular expressions and of trim is
modelled over its ASCII members.
-/

namespace Sentiview

/-- ASCII members of the JavaScript whitespace class (space, tab,
newline, carriage return, vertical tab, form feed). -/
def jsWs (c : Char) : Bool :=
  c = ' ' || c = '\t' || c = '\n' || c = '\r' || c = '\x0b' || c = '\x0c'

/-- Character class of the regex fragment written as caret slash newline-s
inside brackets: any character that is not a slash, a newline or whitespace. -/
def notSlashWs (c : Char) : Bool := !(c = '/' || c = '\n' || jsWs c)

/-- Character class of the regex escape capital S: any non-whitespace character. -/
def nonWs (c : Char) : Bool := !jsWs c

/-- Character class of the bracket expression a-z A-Z 0-9 underscore hyphen
used for the 11-character video identifier. -/
def idChar (c : Char) : Bool := c.isAlpha || c.isDigit || c = '_' || c = '-'

/-- Character class holding only the slash. -/
def isSlash (c : Char) : Bool := c = '/'

/-- Character class of the bracket expression question mark or ampersand. -/
def isQA (c : Char) : Bool := c = '?' || c = '&'

/-- Syntax of the regular-expression fragments the two sources use:
literals, single-character classes, sequencing, ordered alternation,
greedy option, greedy plus over a class, and lazy star over a class. -/
inductive Re : Type
  | str (l : List Char)
  | cls (p : Char → Bool)
  | seq (a b : Re)
  | alt (a b : Re)
  | opt (a : Re)
  | plus (p : Char → Bool)
  | starL (p : Char → Bool)

/-- Match a literal against the front of the input, then continue. -/
def matchStr : List Char → List Char → (List Char → Option (List Char)) → Option (List Char)
  | [], s, k => k s
  | _ :: _, [], _ => none
  | a :: l, c :: s, k => if a = c then matchStr l s k else none

/-- Greedy star over a single-character class: consume as much as possible
first, backtracking into the continuation. -/
def greedyStar (p : Char → Bool) : List Char → (List Char → Option (List Char)) → Option (List Char)
  | [], k => k []
  | c :: s, k => if p c then (greedyStar p s k) <|> k (c :: s) else k (c :: s)

/-- Lazy star over a single-character class: try the continuation first,
consuming a character only when it fails. -/
def lazyStar (p : Char → Bool) : List Char → (List Char → Option (List Char)) → Option (List Char)
  | [], k => k []
  | c :: s, k => k (c :: s) <|> (if p c then lazyStar p s (fun t => k t) else none)

/-- Backtracking matcher in continuation-passing style, with the
preference order of JavaScript regular expressions: alternation tries the
left branch first, option and plus are greedy, starL is lazy. -/
def mre : Re → List Char → (List Char → Option (List Char)) → Option (List Char)
  | .str l, s, k => matchStr l s k
  | .cls p, s, k =>
    match s with
    | [] => none
    | c :: s' => if p c then k s' else none
  | .seq a b, s, k => mre a s fun t => mre b t k
  | .alt a b, s, k => (mre a s k) <|> (mre b s k)
  | .opt a, s, k => (mre a s k) <|> k s
  | .plus p, s, k =>
    match s with
    | [] => none
    | c :: s' => if p c then greedyStar p s' k else none
  | .starL p, s, k => lazyStar p s k

/-- Unanchored search, leftmost match first, as the JavaScript match method
with no anchors: try the pattern at each start position in order. -/
def searchAux (re : Re) (cap : List Char → Option (List Char)) : List Char → Option (List Char)
  | [] => mre re [] cap
  | c :: s => (mre re (c :: s) cap) <|> searchAux re cap s

/-- Consume exactly n characters of the class p and return them. -/
def takeCap (p : Char → Bool) : Nat → List Char → Option (List Char)
  | 0, _ => some []
  | _ + 1, [] => none
  | n + 1, c :: s => if p c then Option.map (fun r => c :: r) (takeCap p n s) else none

/-- Capture group of both source regexes: exactly eleven identifier
characters, with the rest of the input unconstrained. -/
def capture11 : List Char → Option (List Char) := takeCap idChar 11

/-- Run the whole regex: search for the prefix pattern and, where it
matches, capture the eleven identifier characters that follow. -/
def jsSearch (re : Re) (s : List Char) : Option (List Char) := searchAux re capture11 s

/-- Scheme fragment http, optional s, colon slash slash. -/
def protoInnerRe : Re :=
  .seq (.str ("http".data)) (.seq (.opt (.str ("s".data))) (.str ("://".data)))

/-- Optional scheme fragment. -/
def protoRe : Re := .opt protoInnerRe

/-- Optional www-dot fragment. -/
def wwwRe : Re := .opt (.str ("www.".data))

/-- Fragment v, or e with optional mbed. -/
def vembedRe : Re := .alt (.str ("v".data)) (.seq (.str ("e".data)) (.opt (.str ("mbed".data))))

/-- First inner shape of the geminiService regex after youtube.com/: a
path segment then slash then non-space run then slash. -/
def gemA1aRe : Re :=
  .seq (.plus notSlashWs) (.seq (.cls isSlash) (.seq (.plus nonWs) (.cls isSlash)))

/-- Second inner shape: v or e or embed then slash. -/
def gemA1bRe : Re := .seq vembedRe (.cls isSlash)

/-- Third inner shape: a lazy non-space run then question mark or
ampersand then v-equals. -/
def gemA1cRe : Re := .seq (.starL nonWs) (.seq (.cls isQA) (.str ("v=".data)))

/-- Inner alternation of the geminiService regex after youtube.com/. -/
def gemTailRe : Re := .alt gemA1aRe (.alt gemA1bRe gemA1cRe)

/-- Host alternation of the geminiService regex: youtube.com/ with its
inner shapes, or youtu.be/. -/
def gemAltRe : Re :=
  .alt (.seq (.str ("youtube.com/".data)) gemTailRe) (.str ("youtu.be/".data))

/-- Prefix of the geminiService regex (part_000 line 8), before the
capture group: optional scheme, optional www, then the host alternation. -/
def geminiPrefixRe : Re := .seq protoRe (.seq wwwRe gemAltRe)

/-- Path shape of the apiService regex after youtube.com/: a path segment
then slash then non-space run then slash then v or e or embed. -/
def apiTailRe : Re :=
  .seq (.plus notSlashWs) (.seq (.cls isSlash) (.seq (.plus nonWs) (.seq (.cls isSlash) vembedRe)))

/-- First branch of the apiService host alternation: youtube.com/ with the
path shape. -/
def apiB1Re : Re := .seq (.str ("youtube.com/".data)) apiTailRe

/-- Head alternation of the second apiService branch: v or e or embed or
watch. -/
def apiB2FirstRe : Re :=
  .alt (.str ("v".data)) (.alt (.seq (.str ("e".data)) (.opt (.str ("mbed".data)))) (.str ("watch".data)))

/-- Tail alternation of the second apiService branch: question-v-equals
or slash. -/
def apiB2SecondRe : Re := .alt (.str ("?v=".data)) (.cls isSlash)

/-- Second branch of the apiService host alternation: v or e or embed or
watch, followed by question-v-equals or slash. -/
def apiB2Re : Re := .seq apiB2FirstRe apiB2SecondRe

/-- Host alternation of the apiService regex. -/
def apiAltRe : Re := .alt apiB1Re (.alt apiB2Re (.str ("youtu.be/".data)))

/-- Prefix of the apiService regex (part_001 line 7), before the capture
group: optional scheme, optional www, then the host alternation. -/
def apiPrefixRe : Re := .seq protoRe (.seq wwwRe apiAltRe)

/-- Trim as the JavaScript trim method over its ASCII whitespace members:
drop whitespace from the front, then from the back. -/
def trimChars (s : List Char) : List Char :=
  (((s.dropWhile jsWs).reverse.dropWhile jsWs)).reverse

end Sentiview

namespace ApiService

open Sentiview

/-- Function extractVideoId of services/apiService.ts (part_001 lines 6-9):
run the regex and return the capture on a match, the trimmed input otherwise. -/
def extractVideoId (input : List Char) : List Char :=
  match jsSearch apiPrefixRe input with
  | some id => id
  | none => trimChars input

end ApiService

namespace GeminiService

open Sentiview

/-- Local identifier computation of analyzeVideoSentiment in
services/geminiService.ts (part_000 lines 8-9): run the regex and return
the capture on a match, the string unknown otherwise. -/
def geminiVideoId (videoUrl : List Char) : List Char :=
  match jsSearch geminiPrefixRe videoUrl with
  | some id => id
  | none => "unknown".data

end GeminiService

namespace Sentiview

/-- JSON values, as JSON.parse can produce them. Object fields are kept in
order; a parsed object has no repeated key. -/
inductive Json : Type
  | null
  | bool (b : Bool)
  | num (q : Rat)
  | str (s : List Char)
  | arr (xs : List Json)
  | obj (fields : List (List Char × Json))

/-- Set a key in an object field list as a JavaScript property write does:
replace the value in place when the key is present, append it otherwise. -/
def setKey : List (List Char × Json) → List Char → Json → List (List Char × Json)
  | [], key, v => [(key, v)]
  | (k, w) :: fs, key, v => if k = key then (k, v) :: fs else (k, w) :: setKey fs key v

/-- Look a key up in an object field list. -/
def getKey : List (List Char × Json) → List Char → Option Json
  | [], _ => none
  | (k, w) :: fs, key => if k = key then some w else getKey fs key

/-- Value of a field of an object; none for a missing field or a
non-object, as reading a property of a JavaScript non-object value that
carries no such property. -/
def Json.get (j : Json) (key : List Char) : Option Json :=
  match j with
  | .obj fs => getKey fs key
  | _ => none

/-- Enumerable own fields JavaScript spread sees on an array: the elements
under their decimal index keys. -/
def indexFields (xs : List Json) : List (List Char × Json) :=
  ((List.range xs.length).zip xs).map (fun iw => ((Nat.repr iw.1).data, iw.2))

/-- Enumerable own fields JavaScript spread sees on a string: its
characters as one-character strings under their decimal index keys. -/
def charFields (s : List Char) : List (List Char × Json) :=
  ((List.range s.length).zip s).map (fun ic => ((Nat.repr ic.1).data, Json.str [ic.2]))

/-- JavaScript object spread followed by one property write, as the return
expression of part_000 builds it: the enumerable own fields of the spread
value (none for the primitives) with the given key then set. -/
def jsSpreadSet (j : Json) (key : List Char) (v : Json) : Json :=
  match j with
  | .obj fs => .obj (setKey fs key v)
  | .arr xs => .obj (setKey (indexFields xs) key v)
  | .str s => .obj (setKey (charFields s) key v)
  | _ => .obj [(key, v)]

/-- Status enum of types.ts (part_003). -/
inductive AnalysisStatus : Type
  | IDLE
  | LOADING
  | SUCCESS
  | ERROR
deriving DecidableEq

/-- React state cells of App.tsx: url, status, data, error. The data cell
holds whatever JSON value the provider resolved with; the source annotates
it as SentimentData but performs no runtime validation. -/
structure AppState : Type where
  url : List Char
  status : AnalysisStatus
  data : Option Json
  error : Option (List Char)

/-- Initial React state of App.tsx: empty url, IDLE, no data, no error. -/
def initialState : AppState := ⟨[], .IDLE, none, none⟩

/-- Outcome of the fetch call of apiService.ts: the promise rejects with
some message, or resolves with a status code and the outcome of parsing
the body as JSON (res.json rejecting when the text is not JSON). -/
inductive HttpOutcome : Type
  | reject (msg : List Char)
  | response (status : Nat) (body : Except (List Char) Json)

/-- Response.ok of the fetch API: status in the range 200 to 299. -/
def resOk (status : Nat) : Bool := 200 ≤ status && status ≤ 299

end Sentiview

namespace ApiService

open Sentiview

/-- Function analyzeVideoSentiment of services/apiService.ts (part_001
lines 11-19): extract the identifier, fetch, throw Backend error with the
status on a non-ok response, otherwise return the parsed body unchanged. -/
def analyzeVideoSentiment (urlOrId : List Char) (out : HttpOutcome) : Except (List Char) Json :=
  let _videoId := extractVideoId urlOrId
  match out with
  | .reject m => .error m
  | .response status body =>
    if resOk status then
      match body with
      | .ok data => .ok data
      | .error m => .error m
    else .error ("Backend error ".data ++ (Nat.repr status).data)

end ApiService

namespace GeminiService

open Sentiview

/-- Outcome of the generateContent call of geminiService.ts: the promise
rejects with some message, or resolves with text whose JSON.parse either
yields a value or throws with some message. -/
inductive GeminiOutcome : Type
  | reject (msg : List Char)
  | text (parse : Except (List Char) Json)

/-- Function analyzeVideoSentiment of services/geminiService.ts (part_000
lines 6-44): compute the local identifier, call the model, parse the
response text, and return the parsed value with video_id overwritten by
the local identifier. -/
def analyzeVideoSentiment (videoUrl : List Char) (out : GeminiOutcome) : Except (List Char) Json :=
  let videoId := geminiVideoId videoUrl
  match out with
  | .reject m => .error m
  | .text (.error m) => .error m
  | .text (.ok data) => .ok (jsSpreadSet data ("video_id".data) (.str videoId))

end GeminiService

namespace Sentiview

/-- User-facing message handleSubmit sets on any caught failure. -/
def errorMessage : List Char :=
  "Failed to process video. Please check the URL and try again.".data

/-- Function handleSubmit of App.tsx (part_002 lines 34-51), run to
completion for one submission against a given provider outcome: an empty
trimmed url returns without any state change or provider call; otherwise
status goes to LOADING with data and error cleared, the apiService
provider is called, and the outcome maps to SUCCESS with the result or to
ERROR with the generic message. The boolean reports whether the provider
call was issued. -/
def handleSubmit (s : AppState) (out : HttpOutcome) : AppState × Bool :=
  if trimChars s.url = [] then (s, false)
  else
    match ApiService.analyzeVideoSentiment s.url out with
    | .ok result => ({ s with status := .SUCCESS, data := some result, error := none }, true)
    | .error _ => ({ s with status := .ERROR, data := none, error := some errorMessage }, true)

/-- State of the event-level machine: the React cells plus the url an
outstanding provider call captured at submission time (none when no call
is outstanding). -/
structure MachineState : Type where
  app : AppState
  pending : Option (List Char)

/-- Events of the controller: editing the input, submitting the form, and
an outstanding provider call settling. -/
inductive MLabel : Type
  | edit (u : List Char)
  | submit
  | resolve (out : HttpOutcome)

/-- Small-step transitions of App.tsx, with the await of handleSubmit as
the step boundary: edits rewrite the url; an empty-trim submission changes
nothing; a non-empty submission, possible only while the button is not
disabled (status not LOADING), clears data and error, sets LOADING and
records the captured url; a settling call maps its outcome to SUCCESS with
the result or ERROR with the generic message and clears the pending slot. -/
inductive MStep : MachineState → MLabel → MachineState → Prop
  | edit (s : MachineState) (u : List Char) :
      MStep s (.edit u) ⟨{ s.app with url := u }, s.pending⟩
  | submitEmpty (s : MachineState) :
      trimChars s.app.url = [] → MStep s .submit s
  | submitStart (s : MachineState) :
      trimChars s.app.url ≠ [] → s.app.status ≠ .LOADING →
      MStep s .submit ⟨{ s.app with status := .LOADING, data := none, error := none }, some s.app.url⟩
  | resolveOk (s : MachineState) (u : List Char) (out : HttpOutcome) (j : Json) :
      s.pending = some u → ApiService.analyzeVideoSentiment u out = .ok j →
      MStep s (.resolve out) ⟨{ s.app with status := .SUCCESS, data := some j, error := none }, none⟩
  | resolveErr (s : MachineState) (u : List Char) (out : HttpOutcome) (m : List Char) :
      s.pending = some u → ApiService.analyzeVideoSentiment u out = .error m →
      MStep s (.resolve out) ⟨{ s.app with status := .ERROR, data := none, error := some errorMessage }, none⟩

/-- States the machine reaches from the initial render. -/
inductive MReachable : MachineState → Prop
  | init : MReachable ⟨initialState, none⟩
  | step {s s' : MachineState} {l : MLabel} : MReachable s → MStep s l s' → MReachable s'

/-- Well-formed success body whose video_id field differs from the locally
computed identifier of the submission it answers. -/
def bodyXYZ : Json :=
  .obj [("video_id".data, .str ("XYZ123".data)),
    ("score".data, .num 50),
    ("label".data, .str ("Average".data)),
    ("components".data, .obj [("transcript_mean".data, .num (1/2)),
      ("comments_mean".data, .num (1/2)), ("engagement".data, .num (1/2))]),
    ("model_accuracy".data, .num 80)]

/-- Response body of the spec scenario with score, label, components and
model_accuracy but no video_id field. -/
def bodyC3 : Json :=
  .obj [("score".data, .num (814/10)),
    ("label".data, .str ("Positive".data)),
    ("components".data, .obj [("transcript_mean".data, .num (7/10)),
      ("comments_mean".data, .num (6/10)), ("engagement".data, .num (5/10))]),
    ("model_accuracy".data, .num (882/10))]

/-! Basic facts about Option alternation and suffixes. -/

theorem orElse_some_left {α : Type} (v : α) (b : Option α) : (some v <|> b) = some v := rfl

theorem orElse_none_left {α : Type} (b : Option α) : (none <|> b) = b := rfl

theorem orElse_eq_none_iff {α : Type} (a b : Option α) :
    (a <|> b) = none ↔ a = none ∧ b = none := by
  cases a <;> simp [orElse_some_left, orElse_none_left]

theorem orElse_cases {α : Type} {a b : Option α} {r : α} (h : (a <|> b) = some r) :
    a = some r ∨ (a = none ∧ b = some r) := by
  cases a with
  | none => exact Or.inr ⟨rfl, h⟩
  | some v => exact Or.inl h

theorem orElse_ne_none_right {α : Type} (a : Option α) {b : Option α} (h : b ≠ none) :
    (a <|> b) ≠ none := by
  cases a with
  | none => simpa [orElse_none_left] using h
  | some v => simp [orElse_some_left]

theorem suffix_append_split {α : Type} {t l s : List α} (h : t <:+ l ++ s) :
    t <:+ s ∨ ∃ t', t' <:+ l ∧ t' ≠ [] ∧ t = t' ++ s := by
  induction l with
  | nil => exact Or.inl (by simpa using h)
  | cons c l ih =>
    rcases List.suffix_cons_iff.mp h with h1 | h2
    · exact Or.inr ⟨c :: l, List.suffix_rfl, by simp, by simpa using h1⟩
    · rcases ih h2 with h3 | ⟨t', ht1, ht2, ht3⟩
      · exact Or.inl h3
      · exact Or.inr ⟨t', ht1.trans (List.suffix_cons c l), ht2, ht3⟩

/-! Failure of the matcher when the continuation fails on every suffix:
the matcher only ever calls its continuation on a suffix of its input. -/

theorem matchStr_none_of (l : List Char) :
    ∀ (s : List Char) (k : List Char → Option (List Char)),
      (∀ t, t <:+ s → k t = none) → matchStr l s k = none := by
  induction l with
  | nil => intro s k h; exact h s List.suffix_rfl
  | cons a l ih =>
    intro s k h
    cases s with
    | nil => rfl
    | cons c s' =>
      show (if a = c then matchStr l s' k else none) = none
      split
      · exact ih s' k fun t ht => h t (ht.trans (List.suffix_cons c s'))
      · rfl

theorem greedyStar_none_of (p : Char → Bool) :
    ∀ (s : List Char) (k : List Char → Option (List Char)),
      (∀ t, t <:+ s → k t = none) → greedyStar p s k = none := by
  intro s
  induction s with
  | nil => intro k h; exact h [] List.suffix_rfl
  | cons c s' ih =>
    intro k h
    show (if p c then (greedyStar p s' k) <|> k (c :: s') else k (c :: s')) = none
    split
    · rw [orElse_eq_none_iff]
      exact ⟨ih k fun t ht => h t (ht.trans (List.suffix_cons c s')), h _ List.suffix_rfl⟩
    · exact h _ List.suffix_rfl

theorem lazyStar_none_of (p : Char → Bool) :
    ∀ (s : List Char) (k : List Char → Option (List Char)),
      (∀ t, t <:+ s → k t = none) → lazyStar p s k = none := by
  intro s
  induction s with
  | nil => intro k h; exact h [] List.suffix_rfl
  | cons c s' ih =>
    intro k h
    show (k (c :: s') <|> _) = none
    rw [orElse_eq_none_iff]
    refine ⟨h _ List.suffix_rfl, ?_⟩
    split
    · exact ih _ fun t ht => h t (ht.trans (List.suffix_cons c s'))
    · rfl

theorem mre_none_of (re : Re) :
    ∀ (s : List Char) (k : List Char → Option (List Char)),
      (∀ t, t <:+ s → k t = none) → mre re s k = none := by
  induction re with
  | str l => intro s k h; exact matchStr_none_of l s k h
  | cls p =>
    intro s k h
    cases s with
    | nil => rfl
    | cons c s' =>
      show (if p c then k s' else none) = none
      split
      · exact h s' (List.suffix_cons c s')
      · rfl
  | seq a b iha ihb =>
    intro s k h
    exact iha s _ fun t ht => ihb t k fun u hu => h u (hu.trans ht)
  | alt a b iha ihb =>
    intro s k h
    show (mre a s k <|> mre b s k) = none
    rw [orElse_eq_none_iff]
    exact ⟨iha s k h, ihb s k h⟩
  | opt a iha =>
    intro s k h
    show (mre a s k <|> k s) = none
    rw [orElse_eq_none_iff]
    exact ⟨iha s k h, h s List.suffix_rfl⟩
  | plus p =>
    intro s k h
    cases s with
    | nil => rfl
    | cons c s' =>
      show (if p c then greedyStar p s' k else none) = none
      split
      · exact greedyStar_none_of p s' k fun t ht => h t (ht.trans (List.suffix_cons c s'))
      · rfl
  | starL p => intro s k h; exact lazyStar_none_of p s k h

/-! Success of the matcher delivers the continuation value, taken at a
suffix of the input. -/

theorem matchStr_some_suffix {l : List Char} :
    ∀ {s : List Char} {k : List Char → Option (List Char)} {r : List Char},
      matchStr l s k = some r → ∃ t, t <:+ s ∧ k t = some r := by
  induction l with
  | nil => intro s k r h; exact ⟨s, List.suffix_rfl, h⟩
  | cons a l ih =>
    intro s k r h
    cases s with
    | nil => exact absurd h (by simp [matchStr])
    | cons c s' =>
      by_cases hac : a = c
      · rcases ih (by simpa [matchStr, hac] using h) with ⟨t, ht, hk⟩
        exact ⟨t, ht.trans (List.suffix_cons c s'), hk⟩
      · exact absurd h (by simp [matchStr, hac])

theorem greedyStar_some_suffix {p : Char → Bool} :
    ∀ {s : List Char} {k : List Char → Option (List Char)} {r : List Char},
      greedyStar p s k = some r → ∃ t, t <:+ s ∧ k t = some r := by
  intro s
  induction s with
  | nil => intro k r h; exact ⟨[], List.suffix_rfl, h⟩
  | cons c s' ih =>
    intro k r h
    by_cases hc : p c
    · rcases orElse_cases (by simpa [greedyStar, hc] using h) with h1 | ⟨_, h2⟩
      · rcases ih h1 with ⟨t, ht, hk⟩
        exact ⟨t, ht.trans (List.suffix_cons c s'), hk⟩
      · exact ⟨c :: s', List.suffix_rfl, h2⟩
    · exact ⟨c :: s', List.suffix_rfl, by simpa [greedyStar, hc] using h⟩

theorem lazyStar_some_suffix {p : Char → Bool} :
    ∀ {s : List Char} {k : List Char → Option (List Char)} {r : List Char},
      lazyStar p s k = some r → ∃ t, t <:+ s ∧ k t = some r := by
  intro s
  induction s with
  | nil => intro k r h; exact ⟨[], List.suffix_rfl, h⟩
  | cons c s' ih =>
    intro k r h
    rcases orElse_cases (by simpa [lazyStar] using h) with h1 | ⟨_, h2⟩
    · exact ⟨c :: s', List.suffix_rfl, h1⟩
    · by_cases hc : p c
      · rcases ih (by simpa [hc] using h2) with ⟨t, ht, hk⟩
        exact ⟨t, ht.trans (List.suffix_cons c s'), hk⟩
      · exact absurd h2 (by simp [hc])

theorem mre_some_suffix {re : Re} :
    ∀ {s : List Char} {k : List Char → Option (List Char)} {r : List Char},
      mre re s k = some r → ∃ t, t <:+ s ∧ k t = some r := by
  induction re with
  | str l => intro s k r h; exact matchStr_some_suffix h
  | cls p =>
    intro s k r h
    cases s with
    | nil => exact absurd h (by simp [mre])
    | cons c s' =>
      by_cases hc : p c
      · exact ⟨s', List.suffix_cons c s', by simpa [mre, hc] using h⟩
      · exact absurd h (by simp [mre, hc])
  | seq a b iha ihb =>
    intro s k r h
    rcases iha (by simpa [mre] using h) with ⟨t, ht, hk⟩
    rcases ihb hk with ⟨u, hu, hk2⟩
    exact ⟨u, hu.trans ht, hk2⟩
  | alt a b iha ihb =>
    intro s k r h
    rcases orElse_cases (by simpa [mre] using h) with h1 | ⟨_, h2⟩
    · exact iha h1
    · exact ihb h2
  | opt a iha =>
    intro s k r h
    rcases orElse_cases (by simpa [mre] using h) with h1 | ⟨_, h2⟩
    · exact iha h1
    · exact ⟨s, List.suffix_rfl, h2⟩
  | plus p =>
    intro s k r h
    cases s with
    | nil => exact absurd h (by simp [mre])
    | cons c s' =>
      by_cases hc : p c
      · rcases greedyStar_some_suffix (by simpa [mre, hc] using h) with ⟨t, ht, hk⟩
        exact ⟨t, ht.trans (List.suffix_cons c s'), hk⟩
      · exact absurd h (by simp [mre, hc])
  | starL p => intro s k r h; exact lazyStar_some_suffix (by simpa [mre] using h)

theorem searchAux_some_suffix {re : Re} {cap : List Char → Option (List Char)} :
    ∀ {s : List Char} {r : List Char},
      searchAux re cap s = some r → ∃ t, t <:+ s ∧ mre re t cap = some r := by
  intro s
  induction s with
  | nil => intro r h; exact ⟨[], List.suffix_rfl, h⟩
  | cons c s' ih =>
    intro r h
    rcases orElse_cases (by simpa [searchAux] using h) with h1 | ⟨_, h2⟩
    · exact ⟨c :: s', List.suffix_rfl, h1⟩
    · rcases ih h2 with ⟨t, ht, hm⟩
      exact ⟨t, ht.trans (List.suffix_cons c s'), hm⟩

theorem searchAux_ne_none_of_suffix {re : Re} {cap : List Char → Option (List Char)}
    {t : List Char} (hm : mre re t cap ≠ none) :
    ∀ {s : List Char}, t <:+ s → searchAux re cap s ≠ none := by
  intro s
  induction s with
  | nil =>
    intro ht
    have h0 := List.suffix_nil.mp ht
    subst h0
    exact hm
  | cons c s' ih =>
    intro ht
    rcases List.suffix_cons_iff.mp ht with h1 | h2
    · intro h
      apply hm
      rw [h1]
      exact ((orElse_eq_none_iff _ _).mp (by simpa [searchAux] using h)).1
    · intro h
      exact ih h2 ((orElse_eq_none_iff _ _).mp (by simpa [searchAux] using h)).2

/-! The literal matcher on a literal prefix, and capture facts. -/

theorem matchStr_append (l : List Char) :
    ∀ (s : List Char) (k : List Char → Option (List Char)), matchStr l (l ++ s) k = k s := by
  induction l with
  | nil => intro s k; rfl
  | cons a l ih =>
    intro s k
    show (if a = a then matchStr l (l ++ s) k else none) = k s
    rw [if_pos rfl, ih]

theorem matchStr_ne_none_split {l : List Char} :
    ∀ {s : List Char} {k : List Char → Option (List Char)},
      matchStr l s k ≠ none → ∃ t, s = l ++ t := by
  induction l with
  | nil => intro s k _; exact ⟨s, rfl⟩
  | cons a l ih =>
    intro s k h
    cases s with
    | nil => exact absurd rfl h
    | cons c s' =>
      by_cases hac : a = c
      · rcases ih (by simpa [matchStr, hac] using h) with ⟨t, ht⟩
        exact ⟨t, by simp [hac, ht]⟩
      · exact absurd (by simp [matchStr, hac]) h

theorem takeCap_some {p : Char → Bool} :
    ∀ {n : Nat} {s r : List Char}, takeCap p n s = some r → r.length = n ∧ r.all p := by
  intro n
  induction n with
  | zero =>
    intro s r h
    cases (Option.some_inj.mp h.symm)
    exact ⟨rfl, rfl⟩
  | succ m ih =>
    intro s r h
    cases s with
    | nil => exact absurd h (by simp [takeCap])
    | cons c s' =>
      by_cases hc : p c
      · rcases Option.map_eq_some'.mp (by simpa [takeCap, hc] using h) with ⟨r', hr', hrr⟩
        rcases ih hr' with ⟨hlen, hall⟩
        subst hrr
        exact ⟨by simp [hlen], by simp [List.all_cons, hc, hall]⟩
      · exact absurd h (by simp [takeCap, hc])

theorem takeCap_append {p : Char → Bool} :
    ∀ {idl : List Char}, idl.all p → ∀ (rest : List Char),
      takeCap p idl.length (idl ++ rest) = some idl := by
  intro idl
  induction idl with
  | nil => intro _ rest; rfl
  | cons c idt ih =>
    intro h rest
    simp only [List.all_cons, Bool.and_eq_true] at h
    obtain ⟨hc, ht⟩ := h
    show (if p c then Option.map _ (takeCap p idt.length (idt ++ rest)) else none) = _
    rw [if_pos hc, ih ht rest]
    rfl

theorem searchAux_none_of (re : Re) (cap : List Char → Option (List Char)) :
    ∀ (s : List Char), (∀ t, t <:+ s → mre re t cap = none) → searchAux re cap s = none := by
  intro s
  induction s with
  | nil => intro h; exact h [] List.suffix_rfl
  | cons c s' ih =>
    intro h
    show (mre re (c :: s') cap <|> searchAux re cap s') = none
    rw [orElse_eq_none_iff]
    exact ⟨h _ List.suffix_rfl, ih fun t ht => h t (ht.trans (List.suffix_cons c s'))⟩

theorem matchStr_none_of_mem {l u : List Char} {k : List Char → Option (List Char)}
    (c : Char) (hcl : c ∈ l) (hcu : c ∉ u) : matchStr l u k = none := by
  cases h : matchStr l u k with
  | none => rfl
  | some r =>
    exfalso
    rcases matchStr_ne_none_split (k := k) (by rw [h]; exact fun hx => Option.noConfusion hx) with ⟨t, ht⟩
    exact hcu (ht ▸ List.mem_append_left t hcl)

theorem takeCap_append_mono {p : Char → Bool} :
    ∀ {n : Nat} {s r : List Char}, takeCap p n s = some r →
      ∀ (v : List Char), takeCap p n (s ++ v) = some r := by
  intro n
  induction n with
  | zero => intro s r h v; simpa [takeCap] using h
  | succ m ih =>
    intro s r h v
    cases s with
    | nil => exact absurd h (by simp [takeCap])
    | cons c s' =>
      by_cases hc : p c
      · rcases Option.map_eq_some'.mp (by simpa [takeCap, hc] using h) with ⟨r', hr', hrr⟩
        show (if p c then Option.map _ (takeCap p m (s' ++ v)) else none) = some r
        rw [if_pos hc, ih hr' v, ← hrr]
        rfl
      · exact absurd h (by simp [takeCap, hc])

/-! Failure of both source regexes on input without URL structure. -/

theorem mre_apiAlt_none (w : List Char) (k : List Char → Option (List Char))
    (hmem : ∀ c ∈ w, c ≠ '/' ∧ c ≠ '?') : mre apiAltRe w k = none := by
  show (matchStr ("youtube.com/".data) w _ <|>
    (mre _ w _ <|> matchStr ("youtu.be/".data) w _)) = none
  rw [orElse_eq_none_iff, orElse_eq_none_iff]
  refine ⟨?_, ?_, ?_⟩
  · exact matchStr_none_of_mem '/' (by decide) (fun hc => (hmem _ hc).1 rfl)
  · show mre (Re.alt _ (Re.alt _ _)) w (fun x => mre (.alt (.str ("?v=".data)) (.cls isSlash)) x k) = none
    apply mre_none_of
    intro x hx
    show (matchStr ("?v=".data) x k <|> mre (Re.cls isSlash) x k) = none
    rw [orElse_eq_none_iff]
    constructor
    · exact matchStr_none_of_mem '?' (by decide) (fun hc => (hmem _ (hx.subset hc)).2 rfl)
    · cases x with
      | nil => rfl
      | cons c x' =>
        have : isSlash c = false := by
          have := (hmem c (hx.subset (List.mem_cons_self c x'))).1
          simp [isSlash, this]
        simp [mre, this]
  · exact matchStr_none_of_mem '/' (by decide) (fun hc => (hmem _ hc).1 rfl)

theorem mre_api_none (t : List Char) (k : List Char → Option (List Char))
    (hs : ∀ c ∈ t, c ≠ '/' ∧ c ≠ '?') : mre apiPrefixRe t k = none := by
  show mre protoRe t (fun u => mre (.seq wwwRe _) u k) = none
  apply mre_none_of
  intro u hu
  show mre wwwRe u _ = none
  apply mre_none_of
  intro w hw
  exact mre_apiAlt_none w k fun c hc => hs c ((hw.trans hu).subset hc)

theorem mre_gemAlt_none (w : List Char) (k : List Char → Option (List Char))
    (hmem : ∀ c ∈ w, c ≠ '/') : mre gemAltRe w k = none := by
  show (matchStr ("youtube.com/".data) w _ <|> matchStr ("youtu.be/".data) w _) = none
  rw [orElse_eq_none_iff]
  exact ⟨matchStr_none_of_mem '/' (by decide) (fun hc => hmem _ hc rfl),
    matchStr_none_of_mem '/' (by decide) (fun hc => hmem _ hc rfl)⟩

theorem mre_gemini_none (t : List Char) (k : List Char → Option (List Char))
    (hs : ∀ c ∈ t, c ≠ '/') : mre geminiPrefixRe t k = none := by
  show mre protoRe t (fun u => mre (.seq wwwRe _) u k) = none
  apply mre_none_of
  intro u hu
  show mre wwwRe u _ = none
  apply mre_none_of
  intro w hw
  exact mre_gemAlt_none w k fun c hc => hs c ((hw.trans hu).subset hc)

theorem jsSearch_api_none (s : List Char) (hs : ∀ c ∈ s, c ≠ '/' ∧ c ≠ '?') :
    jsSearch apiPrefixRe s = none :=
  searchAux_none_of _ _ s fun t ht => mre_api_none t _ fun c hc => hs c (ht.subset hc)

theorem jsSearch_gemini_none (s : List Char) (hs : ∀ c ∈ s, c ≠ '/') :
    jsSearch geminiPrefixRe s = none :=
  searchAux_none_of _ _ s fun t ht => mre_gemini_none t _ fun c hc => hs c (ht.subset hc)

/-! Character-class facts. -/

theorem idChar_ne_slash {c : Char} (h : idChar c = true) : c ≠ '/' := by
  intro he; subst he; exact absurd h (by decide)

theorem idChar_ne_qmark {c : Char} (h : idChar c = true) : c ≠ '?' := by
  intro he; subst he; exact absurd h (by decide)

theorem idChar_not_ws {c : Char} (h : idChar c = true) : jsWs c = false := by
  cases hjs : jsWs c with
  | false => rfl
  | true =>
    exfalso
    simp only [jsWs, Bool.or_eq_true, decide_eq_true_eq] at hjs
    rcases hjs with ((((rfl | rfl) | rfl) | rfl) | rfl) | rfl <;> exact absurd h (by decide)

theorem jsWs_ne_slash {c : Char} (h : jsWs c = true) : c ≠ '/' := by
  intro he; subst he; exact absurd h (by decide)

theorem jsWs_ne_qmark {c : Char} (h : jsWs c = true) : c ≠ '?' := by
  intro he; subst he; exact absurd h (by decide)

/-! Trim lemmas. -/

theorem dropWhile_head_false {α : Type} {p : α → Bool} :
    ∀ {l : List α} {c : α} {t : List α}, l.dropWhile p = c :: t → p c = false := by
  intro l
  induction l with
  | nil => intro c t h; exact absurd h (by simp)
  | cons a l' ih =>
    intro c t h
    by_cases ha : p a
    · exact ih (by simpa [List.dropWhile_cons, ha] using h)
    · have : a = c := by
        have := (by simpa [List.dropWhile_cons, ha] using h : a :: l' = c :: t)
        exact (List.cons.injEq _ _ _ _ ▸ this).1
      subst this
      simpa using ha

theorem dropWhile_all_false {α : Type} {p : α → Bool} :
    ∀ {l : List α}, (∀ c ∈ l, p c = false) → l.dropWhile p = l := by
  intro l
  induction l with
  | nil => intro _; rfl
  | cons a l' _ =>
    intro h
    have ha : p a = false := h a (List.mem_cons_self a l')
    rw [List.dropWhile_cons, if_neg (by simp [ha])]

theorem trimChars_of_no_ws {s : List Char} (h : ∀ c ∈ s, jsWs c = false) :
    trimChars s = s := by
  unfold trimChars
  rw [dropWhile_all_false h, dropWhile_all_false (fun c hc => h c (List.mem_reverse.mp hc)),
    List.reverse_reverse]

theorem dropWhile_trim_decomp (s : List Char) :
    ∃ w2, s.dropWhile jsWs = trimChars s ++ w2 := by
  refine ⟨((s.dropWhile jsWs).reverse.takeWhile jsWs).reverse, ?_⟩
  calc s.dropWhile jsWs = ((s.dropWhile jsWs).reverse).reverse := (List.reverse_reverse _).symm
    _ = ((s.dropWhile jsWs).reverse.takeWhile jsWs ++ (s.dropWhile jsWs).reverse.dropWhile jsWs).reverse := by
        rw [List.takeWhile_append_dropWhile]
    _ = ((s.dropWhile jsWs).reverse.dropWhile jsWs).reverse ++ ((s.dropWhile jsWs).reverse.takeWhile jsWs).reverse := by
        rw [List.reverse_append]
    _ = trimChars s ++ ((s.dropWhile jsWs).reverse.takeWhile jsWs).reverse := rfl

theorem trimChars_suffix_extend {s t : List Char} (ht : t <:+ trimChars s) :
    ∃ w2, (t ++ w2) <:+ s := by
  obtain ⟨w2, hw2⟩ := dropWhile_trim_decomp s
  refine ⟨w2, ?_⟩
  have h1 : (t ++ w2) <:+ s.dropWhile jsWs := by
    obtain ⟨x, hx⟩ := ht
    exact ⟨x, by rw [hw2, ← hx, List.append_assoc]⟩
  have h2 : s.dropWhile jsWs <:+ s :=
    ⟨s.takeWhile jsWs, List.takeWhile_append_dropWhile jsWs s⟩
  exact h1.trans h2

/-! Success of the matcher is stable under extending the input on the
right, provided the continuation is: a match inside a longer input is
still found. -/

theorem orElse_ne_none_iff {α : Type} (a b : Option α) :
    (a <|> b) ≠ none ↔ (a ≠ none ∨ b ≠ none) := by
  cases a <;> simp [orElse_some_left, orElse_none_left]

theorem orElse_ne_none_left {α : Type} {a : Option α} (h : a ≠ none) (b : Option α) :
    (a <|> b) ≠ none :=
  (orElse_ne_none_iff a b).mpr (Or.inl h)

theorem greedyStar_ne_none_here (p : Char → Bool) (v : List Char)
    {k : List Char → Option (List Char)} (h : k v ≠ none) : greedyStar p v k ≠ none := by
  cases v with
  | nil => exact h
  | cons c v' =>
    show (if p c then (greedyStar p v' k) <|> k (c :: v') else k (c :: v')) ≠ none
    split
    · exact orElse_ne_none_right _ h
    · exact h

theorem lazyStar_ne_none_here (p : Char → Bool) (v : List Char)
    {k : List Char → Option (List Char)} (h : k v ≠ none) : lazyStar p v k ≠ none := by
  cases v with
  | nil => exact h
  | cons c v' =>
    show (k (c :: v') <|> _) ≠ none
    exact orElse_ne_none_left h _

theorem matchStr_append_mono (l : List Char) :
    ∀ (t v : List Char) (k k' : List Char → Option (List Char)),
      (∀ u, u <:+ t → k u ≠ none → k' (u ++ v) ≠ none) →
      matchStr l t k ≠ none → matchStr l (t ++ v) k' ≠ none := by
  induction l with
  | nil =>
    intro t v k k' hmono h
    exact hmono t List.suffix_rfl h
  | cons a l ih =>
    intro t v k k' hmono h
    cases t with
    | nil => exact absurd rfl h
    | cons c t' =>
      by_cases hac : a = c
      · have h1 : matchStr l t' k ≠ none := by simpa [matchStr, hac] using h
        have h2 := ih t' v k k' (fun u hu => hmono u (hu.trans (List.suffix_cons c t'))) h1
        simpa [matchStr, hac] using h2
      · exact absurd (by simp [matchStr, hac]) h

theorem greedyStar_append_mono (p : Char → Bool) :
    ∀ (t v : List Char) (k k' : List Char → Option (List Char)),
      (∀ u, u <:+ t → k u ≠ none → k' (u ++ v) ≠ none) →
      greedyStar p t k ≠ none → greedyStar p (t ++ v) k' ≠ none := by
  intro t
  induction t with
  | nil =>
    intro v k k' hmono h
    exact greedyStar_ne_none_here p v (hmono [] List.suffix_rfl h)
  | cons c t' ih =>
    intro v k k' hmono h
    by_cases hc : p c
    · have h1 : (greedyStar p t' k <|> k (c :: t')) ≠ none := by simpa [greedyStar, hc] using h
      rcases (orElse_ne_none_iff _ _).mp h1 with h2 | h3
      · have := ih v k k' (fun u hu => hmono u (hu.trans (List.suffix_cons c t'))) h2
        have goal : (greedyStar p (t' ++ v) k' <|> k' (c :: (t' ++ v))) ≠ none :=
          orElse_ne_none_left this _
        simpa [greedyStar, hc] using goal
      · have := hmono (c :: t') List.suffix_rfl h3
        have goal : (greedyStar p (t' ++ v) k' <|> k' (c :: (t' ++ v))) ≠ none :=
          orElse_ne_none_right _ (by simpa using this)
        simpa [greedyStar, hc] using goal
    · have h1 : k (c :: t') ≠ none := by simpa [greedyStar, hc] using h
      have := hmono (c :: t') List.suffix_rfl h1
      simpa [greedyStar, hc] using this

theorem lazyStar_append_mono (p : Char → Bool) :
    ∀ (t v : List Char) (k k' : List Char → Option (List Char)),
      (∀ u, u <:+ t → k u ≠ none → k' (u ++ v) ≠ none) →
      lazyStar p t k ≠ none → lazyStar p (t ++ v) k' ≠ none := by
  intro t
  induction t with
  | nil =>
    intro v k k' hmono h
    exact lazyStar_ne_none_here p v (hmono [] List.suffix_rfl h)
  | cons c t' ih =>
    intro v k k' hmono h
    have h1 : (k (c :: t') <|> (if p c then lazyStar p t' k else none)) ≠ none := by
      simpa [lazyStar] using h
    rcases (orElse_ne_none_iff _ _).mp h1 with h2 | h3
    · have := hmono (c :: t') List.suffix_rfl h2
      have goal : (k' (c :: (t' ++ v)) <|> (if p c then lazyStar p (t' ++ v) k' else none)) ≠ none :=
        orElse_ne_none_left (by simpa using this) _
      simpa [lazyStar] using goal
    · by_cases hc : p c
      · have h4 : lazyStar p t' k ≠ none := by simpa [hc] using h3
        have := ih v k k' (fun u hu => hmono u (hu.trans (List.suffix_cons c t'))) h4
        have goal : (k' (c :: (t' ++ v)) <|> (if p c then lazyStar p (t' ++ v) k' else none)) ≠ none :=
          orElse_ne_none_right _ (by simpa [hc] using this)
        simpa [lazyStar] using goal
      · rw [if_neg hc] at h3
        exact absurd rfl h3

theorem mre_append_mono (re : Re) :
    ∀ (t v : List Char) (k k' : List Char → Option (List Char)),
      (∀ u, u <:+ t → k u ≠ none → k' (u ++ v) ≠ none) →
      mre re t k ≠ none → mre re (t ++ v) k' ≠ none := by
  induction re with
  | str l => exact matchStr_append_mono l
  | cls p =>
    intro t v k k' hmono h
    cases t with
    | nil => exact absurd rfl h
    | cons c t' =>
      by_cases hc : p c
      · have h1 : k t' ≠ none := by simpa [mre, hc] using h
        have := hmono t' (List.suffix_cons c t') h1
        simpa [mre, hc] using this
      · exact absurd (by simp [mre, hc]) h
  | seq a b iha ihb =>
    intro t v k k' hmono h
    have h1 : mre a t (fun u => mre b u k) ≠ none := by simpa [mre] using h
    have h2 := iha t v _ (fun u => mre b u k')
      (fun u hu hne => ihb u v k k' (fun w hw => hmono w (hw.trans hu)) hne) h1
    simpa [mre] using h2
  | alt a b iha ihb =>
    intro t v k k' hmono h
    have h1 : (mre a t k <|> mre b t k) ≠ none := by simpa [mre] using h
    rcases (orElse_ne_none_iff _ _).mp h1 with h2 | h3
    · have goal : (mre a (t ++ v) k' <|> mre b (t ++ v) k') ≠ none :=
        orElse_ne_none_left (iha t v k k' hmono h2) _
      simpa [mre] using goal
    · have goal : (mre a (t ++ v) k' <|> mre b (t ++ v) k') ≠ none :=
        orElse_ne_none_right _ (ihb t v k k' hmono h3)
      simpa [mre] using goal
  | opt a iha =>
    intro t v k k' hmono h
    have h1 : (mre a t k <|> k t) ≠ none := by simpa [mre] using h
    rcases (orElse_ne_none_iff _ _).mp h1 with h2 | h3
    · have goal : (mre a (t ++ v) k' <|> k' (t ++ v)) ≠ none :=
        orElse_ne_none_left (iha t v k k' hmono h2) _
      simpa [mre] using goal
    · have goal : (mre a (t ++ v) k' <|> k' (t ++ v)) ≠ none :=
        orElse_ne_none_right _ (hmono t List.suffix_rfl h3)
      simpa [mre] using goal
  | plus p =>
    intro t v k k' hmono h
    cases t with
    | nil => exact absurd rfl h
    | cons c t' =>
      by_cases hc : p c
      · have h1 : greedyStar p t' k ≠ none := by simpa [mre, hc] using h
        have := greedyStar_append_mono p t' v k k'
          (fun u hu => hmono u (hu.trans (List.suffix_cons c t'))) h1
        simpa [mre, hc] using this
      · exact absurd (by simp [mre, hc]) h
  | starL p =>
    intro t v k k' hmono h
    have := lazyStar_append_mono p t v k k' hmono (by simpa [mre] using h)
    simpa [mre] using this

theorem capture11_append_mono {u : List Char} (h : capture11 u ≠ none) (v : List Char) :
    capture11 (u ++ v) ≠ none := by
  cases hc : capture11 u with
  | none => exact absurd hc h
  | some r =>
    have := takeCap_append_mono (p := idChar) (n := 11) hc v
    rw [show capture11 (u ++ v) = takeCap idChar 11 (u ++ v) from rfl, this]
    exact fun hx => Option.noConfusion hx

theorem jsSearch_api_trim_none {s : List Char} (h : jsSearch apiPrefixRe s = none) :
    jsSearch apiPrefixRe (trimChars s) = none := by
  cases hts : jsSearch apiPrefixRe (trimChars s) with
  | none => rfl
  | some r =>
    exfalso
    rcases searchAux_some_suffix hts with ⟨t, ht, hm⟩
    rcases trimChars_suffix_extend ht with ⟨w2, hsuf⟩
    have hne : mre apiPrefixRe t capture11 ≠ none := by
      rw [hm]; exact fun hx => Option.noConfusion hx
    have hext : mre apiPrefixRe (t ++ w2) capture11 ≠ none :=
      mre_append_mono apiPrefixRe t w2 capture11 capture11
        (fun u _ hu => capture11_append_mono hu w2) hne
    exact searchAux_ne_none_of_suffix hext hsuf h

theorem jsSearch_api_shape {s r : List Char} (h : jsSearch apiPrefixRe s = some r) :
    r.length = 11 ∧ ∀ c ∈ r, idChar c = true := by
  rcases searchAux_some_suffix h with ⟨t, _, hm⟩
  rcases mre_some_suffix hm with ⟨u, _, hcap⟩
  rcases takeCap_some hcap with ⟨hlen, hall⟩
  exact ⟨hlen, List.all_eq_true.mp hall⟩

theorem jsSearch_gemini_shape {s r : List Char} (h : jsSearch geminiPrefixRe s = some r) :
    r.length = 11 ∧ ∀ c ∈ r, idChar c = true := by
  rcases searchAux_some_suffix h with ⟨t, _, hm⟩
  rcases mre_some_suffix hm with ⟨u, _, hcap⟩
  rcases takeCap_some hcap with ⟨hlen, hall⟩
  exact ⟨hlen, List.all_eq_true.mp hall⟩

theorem extractVideoId_plain (s : List Char) (hs : ∀ c ∈ s, c ≠ '/' ∧ c ≠ '?') :
    ApiService.extractVideoId s = trimChars s := by
  simp [ApiService.extractVideoId, jsSearch_api_none s hs]

theorem geminiVideoId_plain (s : List Char) (hs : ∀ c ∈ s, c ≠ '/') :
    GeminiService.geminiVideoId s = "unknown".data := by
  simp [GeminiService.geminiVideoId, jsSearch_gemini_none s hs]

theorem trimChars_idem (s : List Char) : trimChars (trimChars s) = trimChars s := by
  have hdrop : (trimChars s).dropWhile jsWs = trimChars s := by
    cases hr : trimChars s with
    | nil => rfl
    | cons c r' =>
      obtain ⟨w2, hw2⟩ := dropWhile_trim_decomp s
      have hcd : s.dropWhile jsWs = c :: (r' ++ w2) := by
        rw [hw2, hr]; rfl
      have hc := dropWhile_head_false hcd
      simp [List.dropWhile_cons, hc]
  have hrev : (trimChars s).reverse = List.dropWhile jsWs (s.dropWhile jsWs).reverse := by
    simp [trimChars, List.reverse_reverse]
  show (((trimChars s).dropWhile jsWs).reverse.dropWhile jsWs).reverse = trimChars s
  rw [hdrop, hrev, List.dropWhile_idempotent, ← hrev, List.reverse_reverse]

/-! Step lemmas for evaluating the matcher along a known path. -/

theorem orElse_none_right {α : Type} (a : Option α) : (a <|> none) = a := by
  cases a <;> rfl

theorem mre_opt_eq (a : Re) (s : List Char) (k : List Char → Option (List Char)) :
    mre (.opt a) s k = (mre a s k <|> k s) := rfl

theorem mre_alt_eq (a b : Re) (s : List Char) (k : List Char → Option (List Char)) :
    mre (.alt a b) s k = (mre a s k <|> mre b s k) := rfl

theorem mre_alt_none_left {a b : Re} {s : List Char} {k : List Char → Option (List Char)}
    (h : mre a s k = none) : mre (.alt a b) s k = mre b s k := by
  rw [mre_alt_eq, h]; rfl

theorem mre_alt_some_left {a b : Re} {s : List Char} {k : List Char → Option (List Char)}
    {r : List Char} (h : mre a s k = some r) : mre (.alt a b) s k = some r := by
  rw [mre_alt_eq, h]; rfl

theorem mre_opt_some {a : Re} {s : List Char} {k : List Char → Option (List Char)}
    {r : List Char} (h : mre a s k = some r) : mre (.opt a) s k = some r := by
  rw [mre_opt_eq, h]; rfl

theorem searchAux_of_mre_some {re : Re} {cap : List Char → Option (List Char)}
    {s r : List Char} (h : mre re s cap = some r) : searchAux re cap s = some r := by
  cases s with
  | nil => exact h
  | cons c s' =>
    show (mre re (c :: s') cap <|> _) = some r
    rw [h]; rfl

theorem searchAux_cons_none {re : Re} {cap : List Char → Option (List Char)}
    {c : Char} {s : List Char} (h : mre re (c :: s) cap = none) :
    searchAux re cap (c :: s) = searchAux re cap s := by
  show (mre re (c :: s) cap <|> searchAux re cap s) = _
  rw [h]; rfl

theorem lazyStar_step {p : Char → Bool} {c : Char} {s : List Char}
    {k : List Char → Option (List Char)} (hk : k (c :: s) = none) (hp : p c = true) :
    lazyStar p (c :: s) k = lazyStar p s k := by
  show (k (c :: s) <|> _) = _
  rw [hk, orElse_none_left, if_pos hp]

theorem lazyStar_stop {p : Char → Bool} {s : List Char}
    {k : List Char → Option (List Char)} {r : List Char} (hk : k s = some r) :
    lazyStar p s k = some r := by
  cases s with
  | nil => exact hk
  | cons c s' =>
    show (k (c :: s') <|> _) = some r
    rw [hk]; rfl

theorem mre_protoInner_https (s : List Char) (K : List Char → Option (List Char)) :
    mre protoInnerRe ("https://".data ++ s) K = K s := by
  show matchStr ("http".data) ("http".data ++ ("s://".data ++ s))
    (fun t => mre (.seq (.opt (.str ("s".data))) (.str ("://".data))) t K) = K s
  rw [matchStr_append]
  show (matchStr ("s".data) ("s".data ++ ("://".data ++ s)) (fun t => matchStr ("://".data) t K)
    <|> matchStr ("://".data) ("s://".data ++ s) K) = K s
  rw [matchStr_append]
  show (matchStr ("://".data) ("://".data ++ s) K <|> matchStr ("://".data) ("s://".data ++ s) K) = K s
  rw [matchStr_append, show matchStr ("://".data) ("s://".data ++ s) K = none from rfl,
    orElse_none_right]

/-! Failure lemmas built around a missing slash. -/

theorem no_slash_append {l₁ l₂ : List Char} (h₁ : ∀ c ∈ l₁, c ≠ '/') (h₂ : ∀ c ∈ l₂, c ≠ '/') :
    ∀ c ∈ l₁ ++ l₂, c ≠ '/' := by
  intro c hc
  rcases List.mem_append.mp hc with h | h
  · exact h₁ c h
  · exact h₂ c h

theorem mre_slashhead_none (Z : Re)
    (hz : Z = Re.cls isSlash ∨ ∃ X, Z = Re.seq (Re.cls isSlash) X)
    {s : List Char} (hs : ∀ c ∈ s, c ≠ '/') (k : List Char → Option (List Char)) :
    ∀ t, t <:+ s → mre Z t k = none := by
  intro t ht
  have hhead : ∀ (c : Char) (t' : List Char), t = c :: t' → isSlash c = false := by
    intro c t' he
    have : c ∈ s := ht.subset (he ▸ List.mem_cons_self c t')
    simp [isSlash, hs c this]
  rcases hz with rfl | ⟨X, rfl⟩
  · cases t with
    | nil => rfl
    | cons c t' => simp [mre, hhead c t' rfl]
  · cases t with
    | nil => rfl
    | cons c t' =>
      show mre (Re.cls isSlash) (c :: t') (fun u => mre X u k) = none
      simp [mre, hhead c t' rfl]

theorem plus_slashZ_fail (p : Char → Bool) (Z : Re)
    (hz : Z = Re.cls isSlash ∨ ∃ X, Z = Re.seq (Re.cls isSlash) X)
    (s : List Char) (k : List Char → Option (List Char)) (hs : ∀ c ∈ s, c ≠ '/') :
    mre (.seq (.plus p) Z) s k = none := by
  show mre (.plus p) s (fun t => mre Z t k) = none
  apply mre_none_of
  intro t ht
  exact mre_slashhead_none Z hz hs k t ht

theorem plus_slash_plus_slashZ_fail (p₁ p₂ : Char → Bool) (Z : Re)
    (hz : Z = Re.cls isSlash ∨ ∃ X, Z = Re.seq (Re.cls isSlash) X)
    (front idl : List Char) (k : List Char → Option (List Char))
    (hfront : ∀ c ∈ front, c ≠ '/') (hidl : ∀ c ∈ idl, c ≠ '/') :
    mre (.seq (.plus p₁) (.seq (.cls isSlash) (.seq (.plus p₂) Z))) (front ++ '/' :: idl) k = none := by
  show mre (.plus p₁) (front ++ '/' :: idl)
    (fun t => mre (.seq (.cls isSlash) (.seq (.plus p₂) Z)) t k) = none
  apply mre_none_of
  intro t ht
  rcases suffix_append_split ht with h1 | ⟨t', ht', hne, rfl⟩
  · rcases List.suffix_cons_iff.mp h1 with rfl | h2
    · have hin : mre (.seq (.plus p₂) Z) idl k = none := plus_slashZ_fail p₂ Z hz idl k hidl
      show (if isSlash '/' = true then mre (.seq (.plus p₂) Z) idl k else none) = none
      rw [if_pos (by decide), hin]
    · exact mre_slashhead_none _ (Or.inr ⟨_, rfl⟩) hidl k t h2
  · cases t' with
    | nil => exact absurd rfl hne
    | cons c t'' =>
      have hc : isSlash c = false := by
        simp [isSlash, hfront c (ht'.subset (List.mem_cons_self c t''))]
      show mre (Re.cls isSlash) ((c :: t'') ++ '/' :: idl)
        (fun u => mre (.seq (.plus p₂) Z) u k) = none
      simp [mre, hc]

/-! Valid identifiers and the capture on them. -/

/-- Eleven characters, all from the identifier class. -/
def valid11 (idl : List Char) : Prop := idl.length = 11 ∧ idl.all idChar = true

instance valid11_decidable (idl : List Char) : Decidable (valid11 idl) := by
  unfold valid11; infer_instance

theorem valid11_no_slash {idl : List Char} (h : valid11 idl) : ∀ c ∈ idl, c ≠ '/' :=
  fun c hc => idChar_ne_slash (List.all_eq_true.mp h.2 c hc)

theorem capture11_exact {idl : List Char} (h : valid11 idl) : capture11 idl = some idl := by
  obtain ⟨hlen, hall⟩ := h
  have := takeCap_append (p := idChar) hall []
  rw [List.append_nil, hlen] at this
  exact this

/-! The three canonical URL shapes, on both regexes: position-zero and
walking lemmas. -/

theorem apiAlt_short_some {idl : List Char} (hcap : capture11 idl = some idl) :
    mre apiAltRe ("youtu.be/".data ++ idl) capture11 = some idl := by
  rw [show apiAltRe = .alt apiB1Re (.alt apiB2Re (.str ("youtu.be/".data))) from rfl, mre_alt_eq,
    show mre apiB1Re ("youtu.be/".data ++ idl) capture11 = none from rfl, orElse_none_left,
    mre_alt_eq,
    show mre apiB2Re ("youtu.be/".data ++ idl) capture11 = none from rfl, orElse_none_left]
  show matchStr ("youtu.be/".data) ("youtu.be/".data ++ idl) capture11 = some idl
  rw [matchStr_append]
  exact hcap

theorem jsSearch_api_short {idl : List Char} (h : valid11 idl) :
    jsSearch apiPrefixRe ("https://youtu.be/".data ++ idl) = some idl := by
  apply searchAux_of_mre_some
  show mre protoRe ("https://youtu.be/".data ++ idl)
    (fun t => mre (.seq wwwRe apiAltRe) t capture11) = some idl
  rw [show protoRe = .opt protoInnerRe from rfl, mre_opt_eq]
  show (mre protoInnerRe ("https://".data ++ ("youtu.be/".data ++ idl))
      (fun t => mre (.seq wwwRe apiAltRe) t capture11) <|>
    mre (.seq wwwRe apiAltRe) ("https://youtu.be/".data ++ idl) capture11) = some idl
  rw [mre_protoInner_https]
  have harm : mre (.seq wwwRe apiAltRe) ("youtu.be/".data ++ idl) capture11 = some idl := by
    show mre wwwRe ("youtu.be/".data ++ idl) (fun t => mre apiAltRe t capture11) = some idl
    rw [show wwwRe = .opt (.str ("www.".data)) from rfl, mre_opt_eq,
      show mre (.str ("www.".data)) ("youtu.be/".data ++ idl)
        (fun t => mre apiAltRe t capture11) = none from rfl,
      orElse_none_left]
    show mre apiAltRe ("youtu.be/".data ++ idl) capture11 = some idl
    exact apiAlt_short_some (capture11_exact h)
  show (mre (.seq wwwRe apiAltRe) ("youtu.be/".data ++ idl) capture11 <|>
    mre (.seq wwwRe apiAltRe) ("https://youtu.be/".data ++ idl) capture11) = some idl
  rw [harm]
  rfl

theorem gemAlt_short_some {idl : List Char} (hcap : capture11 idl = some idl) :
    mre gemAltRe ("youtu.be/".data ++ idl) capture11 = some idl := by
  rw [show gemAltRe = .alt (.seq (.str ("youtube.com/".data)) gemTailRe) (.str ("youtu.be/".data)) from rfl,
    mre_alt_eq,
    show mre (.seq (.str ("youtube.com/".data)) gemTailRe) ("youtu.be/".data ++ idl) capture11 = none from rfl,
    orElse_none_left]
  show matchStr ("youtu.be/".data) ("youtu.be/".data ++ idl) capture11 = some idl
  rw [matchStr_append]
  exact hcap

theorem jsSearch_gem_short {idl : List Char} (h : valid11 idl) :
    jsSearch geminiPrefixRe ("https://youtu.be/".data ++ idl) = some idl := by
  apply searchAux_of_mre_some
  show mre protoRe ("https://youtu.be/".data ++ idl)
    (fun t => mre (.seq wwwRe gemAltRe) t capture11) = some idl
  rw [show protoRe = .opt protoInnerRe from rfl, mre_opt_eq]
  show (mre protoInnerRe ("https://".data ++ ("youtu.be/".data ++ idl))
      (fun t => mre (.seq wwwRe gemAltRe) t capture11) <|>
    mre (.seq wwwRe gemAltRe) ("https://youtu.be/".data ++ idl) capture11) = some idl
  rw [mre_protoInner_https]
  have harm : mre (.seq wwwRe gemAltRe) ("youtu.be/".data ++ idl) capture11 = some idl := by
    show mre wwwRe ("youtu.be/".data ++ idl) (fun t => mre gemAltRe t capture11) = some idl
    rw [show wwwRe = .opt (.str ("www.".data)) from rfl, mre_opt_eq,
      show mre (.str ("www.".data)) ("youtu.be/".data ++ idl)
        (fun t => mre gemAltRe t capture11) = none from rfl,
      orElse_none_left]
    show mre gemAltRe ("youtu.be/".data ++ idl) capture11 = some idl
    exact gemAlt_short_some (capture11_exact h)
  show (mre (.seq wwwRe gemAltRe) ("youtu.be/".data ++ idl) capture11 <|>
    mre (.seq wwwRe gemAltRe) ("https://youtu.be/".data ++ idl) capture11) = some idl
  rw [harm]
  rfl

theorem apiB1_fail {rest : List Char} (hrest : ∀ c ∈ rest, c ≠ '/')
    (k : List Char → Option (List Char)) :
    mre apiB1Re ("youtube.com/".data ++ rest) k = none := by
  show matchStr ("youtube.com/".data) ("youtube.com/".data ++ rest)
    (fun t => mre apiTailRe t k) = none
  rw [matchStr_append]
  show mre (.seq (.plus notSlashWs)
    (.seq (.cls isSlash) (.seq (.plus nonWs) (.seq (.cls isSlash) vembedRe)))) rest k = none
  exact plus_slashZ_fail notSlashWs _ (Or.inr ⟨_, rfl⟩) rest k hrest

theorem apiAlt_ytc_fail {rest : List Char} (hrest : ∀ c ∈ rest, c ≠ '/')
    (k : List Char → Option (List Char)) :
    mre apiAltRe ("youtube.com/".data ++ rest) k = none := by
  rw [show apiAltRe = .alt apiB1Re (.alt apiB2Re (.str ("youtu.be/".data))) from rfl, mre_alt_eq,
    apiB1_fail hrest k, orElse_none_left, mre_alt_eq,
    show mre apiB2Re ("youtube.com/".data ++ rest) k = none from rfl, orElse_none_left,
    show mre (.str ("youtu.be/".data)) ("youtube.com/".data ++ rest) k = none from rfl]

theorem apiWww_fail {rest : List Char}
    (halt : ∀ k, mre apiAltRe ("youtube.com/".data ++ rest) k = none)
    (haltw : ∀ k, mre apiAltRe ("www.youtube.com/".data ++ rest) k = none)
    (k : List Char → Option (List Char)) :
    mre (.seq wwwRe apiAltRe) ("www.youtube.com/".data ++ rest) k = none := by
  show mre wwwRe ("www.youtube.com/".data ++ rest) (fun t => mre apiAltRe t k) = none
  rw [show wwwRe = .opt (.str ("www.".data)) from rfl, mre_opt_eq]
  show (matchStr ("www.".data) ("www.".data ++ ("youtube.com/".data ++ rest))
      (fun t => mre apiAltRe t k) <|>
    mre apiAltRe ("www.youtube.com/".data ++ rest) k) = none
  rw [matchStr_append]
  show (mre apiAltRe ("youtube.com/".data ++ rest) k <|>
    mre apiAltRe ("www.youtube.com/".data ++ rest) k) = none
  rw [halt, haltw]
  rfl

theorem api_pos_ytc {rest : List Char}
    (halt : ∀ k, mre apiAltRe ("youtube.com/".data ++ rest) k = none) :
    mre apiPrefixRe ("youtube.com/".data ++ rest) capture11 = none := by
  show mre protoRe ("youtube.com/".data ++ rest)
    (fun t => mre (.seq wwwRe apiAltRe) t capture11) = none
  rw [show protoRe = .opt protoInnerRe from rfl, mre_opt_eq,
    show mre protoInnerRe ("youtube.com/".data ++ rest)
      (fun t => mre (.seq wwwRe apiAltRe) t capture11) = none from rfl,
    orElse_none_left]
  show mre wwwRe ("youtube.com/".data ++ rest) (fun t => mre apiAltRe t capture11) = none
  rw [show wwwRe = .opt (.str ("www.".data)) from rfl, mre_opt_eq,
    show mre (.str ("www.".data)) ("youtube.com/".data ++ rest)
      (fun t => mre apiAltRe t capture11) = none from rfl,
    orElse_none_left]
  exact halt capture11

theorem api_pos_www {rest : List Char}
    (halt : ∀ k, mre apiAltRe ("youtube.com/".data ++ rest) k = none)
    (haltw : ∀ k, mre apiAltRe ("www.youtube.com/".data ++ rest) k = none) :
    mre apiPrefixRe ("www.youtube.com/".data ++ rest) capture11 = none := by
  show mre protoRe ("www.youtube.com/".data ++ rest)
    (fun t => mre (.seq wwwRe apiAltRe) t capture11) = none
  rw [show protoRe = .opt protoInnerRe from rfl, mre_opt_eq,
    show mre protoInnerRe ("www.youtube.com/".data ++ rest)
      (fun t => mre (.seq wwwRe apiAltRe) t capture11) = none from rfl,
    orElse_none_left]
  show mre (.seq wwwRe apiAltRe) ("www.youtube.com/".data ++ rest) capture11 = none
  exact apiWww_fail halt haltw capture11

theorem api_pos_full {rest : List Char}
    (halt : ∀ k, mre apiAltRe ("youtube.com/".data ++ rest) k = none)
    (haltw : ∀ k, mre apiAltRe ("www.youtube.com/".data ++ rest) k = none) :
    mre apiPrefixRe ("https://www.youtube.com/".data ++ rest) capture11 = none := by
  show mre protoRe ("https://www.youtube.com/".data ++ rest)
    (fun t => mre (.seq wwwRe apiAltRe) t capture11) = none
  rw [show protoRe = .opt protoInnerRe from rfl, mre_opt_eq]
  show (mre protoInnerRe ("https://".data ++ ("www.youtube.com/".data ++ rest))
      (fun t => mre (.seq wwwRe apiAltRe) t capture11) <|>
    mre (.seq wwwRe apiAltRe) ("https://www.youtube.com/".data ++ rest) capture11) = none
  rw [mre_protoInner_https]
  show (mre (.seq wwwRe apiAltRe) ("www.youtube.com/".data ++ rest) capture11 <|>
    mre (.seq wwwRe apiAltRe) ("https://www.youtube.com/".data ++ rest) capture11) = none
  rw [apiWww_fail halt haltw capture11, orElse_none_left]
  show mre wwwRe ("https://www.youtube.com/".data ++ rest)
    (fun t => mre apiAltRe t capture11) = none
  rw [show wwwRe = .opt (.str ("www.".data)) from rfl, mre_opt_eq,
    show mre (.str ("www.".data)) ("https://www.youtube.com/".data ++ rest)
      (fun t => mre apiAltRe t capture11) = none from rfl,
    orElse_none_left]
  show mre apiAltRe ("https://www.youtube.com/".data ++ rest) capture11 = none
  rfl

theorem mre_api_watchpos {idl : List Char} (hcap : capture11 idl = some idl) :
    mre apiPrefixRe ("watch?v=".data ++ idl) capture11 = some idl := by
  show mre protoRe ("watch?v=".data ++ idl)
    (fun t => mre (.seq wwwRe apiAltRe) t capture11) = some idl
  rw [show protoRe = .opt protoInnerRe from rfl, mre_opt_eq,
    show mre protoInnerRe ("watch?v=".data ++ idl)
      (fun t => mre (.seq wwwRe apiAltRe) t capture11) = none from rfl,
    orElse_none_left]
  show mre wwwRe ("watch?v=".data ++ idl) (fun t => mre apiAltRe t capture11) = some idl
  rw [show wwwRe = .opt (.str ("www.".data)) from rfl, mre_opt_eq,
    show mre (.str ("www.".data)) ("watch?v=".data ++ idl)
      (fun t => mre apiAltRe t capture11) = none from rfl,
    orElse_none_left]
  show mre apiAltRe ("watch?v=".data ++ idl) capture11 = some idl
  rw [show apiAltRe = .alt apiB1Re (.alt apiB2Re (.str ("youtu.be/".data))) from rfl, mre_alt_eq,
    show mre apiB1Re ("watch?v=".data ++ idl) capture11 = none from rfl, orElse_none_left,
    mre_alt_eq]
  have hb2 : mre apiB2Re ("watch?v=".data ++ idl) capture11 = some idl := by
    show mre apiB2FirstRe ("watch?v=".data ++ idl)
      (fun t => mre apiB2SecondRe t capture11) = some idl
    rw [show apiB2FirstRe = .alt (.str ("v".data))
        (.alt (.seq (.str ("e".data)) (.opt (.str ("mbed".data)))) (.str ("watch".data))) from rfl,
      mre_alt_eq,
      show mre (.str ("v".data)) ("watch?v=".data ++ idl)
        (fun t => mre apiB2SecondRe t capture11) = none from rfl,
      orElse_none_left, mre_alt_eq,
      show mre (.seq (.str ("e".data)) (.opt (.str ("mbed".data)))) ("watch?v=".data ++ idl)
        (fun t => mre apiB2SecondRe t capture11) = none from rfl,
      orElse_none_left]
    show matchStr ("watch".data) ("watch".data ++ ("?v=".data ++ idl))
      (fun t => mre apiB2SecondRe t capture11) = some idl
    rw [matchStr_append]
    show (matchStr ("?v=".data) ("?v=".data ++ idl) capture11 <|>
      mre (.cls isSlash) ("?v=".data ++ idl) capture11) = some idl
    rw [matchStr_append, hcap]
    rfl
  rw [hb2]
  rfl

theorem jsSearch_api_watch {idl : List Char} (h : valid11 idl) :
    jsSearch apiPrefixRe ("https://www.youtube.com/watch?v=".data ++ idl) = some idl := by
  have hidl := valid11_no_slash h
  have hrest : ∀ c ∈ ("watch?v=".data ++ idl), c ≠ '/' := no_slash_append (by decide) hidl
  have halt : ∀ k, mre apiAltRe ("youtube.com/".data ++ ("watch?v=".data ++ idl)) k = none :=
    fun k => apiAlt_ytc_fail hrest k
  have haltw : ∀ k, mre apiAltRe ("www.youtube.com/".data ++ ("watch?v=".data ++ idl)) k = none :=
    fun k => rfl
  show searchAux apiPrefixRe capture11 ("https://www.youtube.com/watch?v=".data ++ idl) = some idl
  iterate 24 (refine (searchAux_cons_none (by
    first
      | rfl
      | exact api_pos_full halt haltw
      | exact api_pos_www halt haltw
      | exact api_pos_ytc halt)).trans ?_)
  exact searchAux_of_mre_some (mre_api_watchpos (capture11_exact h))

theorem apiB1_embed_fail {idl : List Char} (hidl : ∀ c ∈ idl, c ≠ '/')
    (k : List Char → Option (List Char)) :
    mre apiB1Re ("youtube.com/".data ++ ("embed/".data ++ idl)) k = none := by
  show matchStr ("youtube.com/".data) ("youtube.com/".data ++ ("embed/".data ++ idl))
    (fun t => mre apiTailRe t k) = none
  rw [matchStr_append]
  show mre (.seq (.plus notSlashWs)
    (.seq (.cls isSlash) (.seq (.plus nonWs) (.seq (.cls isSlash) vembedRe))))
    ("embed".data ++ '/' :: idl) k = none
  exact plus_slash_plus_slashZ_fail notSlashWs nonWs (.seq (.cls isSlash) vembedRe)
    (Or.inr ⟨vembedRe, rfl⟩) ("embed".data) idl k (by decide) hidl

theorem apiAlt_embed_fail {idl : List Char} (hidl : ∀ c ∈ idl, c ≠ '/')
    (k : List Char → Option (List Char)) :
    mre apiAltRe ("youtube.com/".data ++ ("embed/".data ++ idl)) k = none := by
  rw [show apiAltRe = .alt apiB1Re (.alt apiB2Re (.str ("youtu.be/".data))) from rfl, mre_alt_eq,
    apiB1_embed_fail hidl k, orElse_none_left, mre_alt_eq,
    show mre apiB2Re ("youtube.com/".data ++ ("embed/".data ++ idl)) k = none from rfl,
    orElse_none_left,
    show mre (.str ("youtu.be/".data)) ("youtube.com/".data ++ ("embed/".data ++ idl)) k = none from rfl]

theorem mre_api_embedpos {idl : List Char} (hcap : capture11 idl = some idl) :
    mre apiPrefixRe ("embed/".data ++ idl) capture11 = some idl := by
  show mre protoRe ("embed/".data ++ idl)
    (fun t => mre (.seq wwwRe apiAltRe) t capture11) = some idl
  rw [show protoRe = .opt protoInnerRe from rfl, mre_opt_eq,
    show mre protoInnerRe ("embed/".data ++ idl)
      (fun t => mre (.seq wwwRe apiAltRe) t capture11) = none from rfl,
    orElse_none_left]
  show mre wwwRe ("embed/".data ++ idl) (fun t => mre apiAltRe t capture11) = some idl
  rw [show wwwRe = .opt (.str ("www.".data)) from rfl, mre_opt_eq,
    show mre (.str ("www.".data)) ("embed/".data ++ idl)
      (fun t => mre apiAltRe t capture11) = none from rfl,
    orElse_none_left]
  show mre apiAltRe ("embed/".data ++ idl) capture11 = some idl
  rw [show apiAltRe = .alt apiB1Re (.alt apiB2Re (.str ("youtu.be/".data))) from rfl, mre_alt_eq,
    show mre apiB1Re ("embed/".data ++ idl) capture11 = none from rfl, orElse_none_left,
    mre_alt_eq]
  have hb2 : mre apiB2Re ("embed/".data ++ idl) capture11 = some idl := by
    show mre apiB2FirstRe ("embed/".data ++ idl)
      (fun t => mre apiB2SecondRe t capture11) = some idl
    rw [show apiB2FirstRe = .alt (.str ("v".data))
        (.alt (.seq (.str ("e".data)) (.opt (.str ("mbed".data)))) (.str ("watch".data))) from rfl,
      mre_alt_eq,
      show mre (.str ("v".data)) ("embed/".data ++ idl)
        (fun t => mre apiB2SecondRe t capture11) = none from rfl,
      orElse_none_left, mre_alt_eq]
    have he : mre (.seq (.str ("e".data)) (.opt (.str ("mbed".data)))) ("embed/".data ++ idl)
        (fun t => mre apiB2SecondRe t capture11) = some idl := by
      show matchStr ("e".data) ("e".data ++ ("mbed/".data ++ idl))
        (fun t => mre (.opt (.str ("mbed".data))) t (fun u => mre apiB2SecondRe u capture11)) = some idl
      rw [matchStr_append]
      show mre (.opt (.str ("mbed".data))) ("mbed/".data ++ idl)
        (fun u => mre apiB2SecondRe u capture11) = some idl
      apply mre_opt_some
      show matchStr ("mbed".data) ("mbed".data ++ ('/' :: idl))
        (fun u => mre apiB2SecondRe u capture11) = some idl
      rw [matchStr_append]
      show (matchStr ("?v=".data) ('/' :: idl) capture11 <|>
        mre (.cls isSlash) ('/' :: idl) capture11) = some idl
      rw [show matchStr ("?v=".data) ('/' :: idl) capture11 = none from rfl, orElse_none_left]
      show (if isSlash '/' = true then capture11 idl else none) = some idl
      rw [if_pos (by decide), hcap]
    rw [he]
    rfl
  rw [hb2]
  rfl

theorem jsSearch_api_embed {idl : List Char} (h : valid11 idl) :
    jsSearch apiPrefixRe ("https://www.youtube.com/embed/".data ++ idl) = some idl := by
  have hidl := valid11_no_slash h
  have halt : ∀ k, mre apiAltRe ("youtube.com/".data ++ ("embed/".data ++ idl)) k = none :=
    fun k => apiAlt_embed_fail hidl k
  have haltw : ∀ k, mre apiAltRe ("www.youtube.com/".data ++ ("embed/".data ++ idl)) k = none :=
    fun k => rfl
  show searchAux apiPrefixRe capture11 ("https://www.youtube.com/embed/".data ++ idl) = some idl
  iterate 24 (refine (searchAux_cons_none (by
    first
      | rfl
      | exact api_pos_full halt haltw
      | exact api_pos_www halt haltw
      | exact api_pos_ytc halt)).trans ?_)
  exact searchAux_of_mre_some (mre_api_embedpos (capture11_exact h))

theorem gemTail_watch_some {idl : List Char} (hcap : capture11 idl = some idl)
    (hidl : ∀ c ∈ idl, c ≠ '/') :
    mre gemTailRe ("watch?v=".data ++ idl) capture11 = some idl := by
  have hrest : ∀ c ∈ ("watch?v=".data ++ idl), c ≠ '/' := no_slash_append (by decide) hidl
  rw [show gemTailRe = .alt gemA1aRe (.alt gemA1bRe gemA1cRe) from rfl, mre_alt_eq,
    show gemA1aRe = .seq (.plus notSlashWs)
      (.seq (.cls isSlash) (.seq (.plus nonWs) (.cls isSlash))) from rfl,
    plus_slashZ_fail notSlashWs _ (Or.inr ⟨_, rfl⟩) _ capture11 hrest, orElse_none_left,
    mre_alt_eq,
    show mre gemA1bRe ("watch?v=".data ++ idl) capture11 = none from rfl, orElse_none_left]
  show lazyStar nonWs ("watch?v=".data ++ idl)
    (fun t => mre (.seq (.cls isQA) (.str ("v=".data))) t capture11) = some idl
  refine (lazyStar_step (by rfl) (by decide)).trans ?_
  refine (lazyStar_step (by rfl) (by decide)).trans ?_
  refine (lazyStar_step (by rfl) (by decide)).trans ?_
  refine (lazyStar_step (by rfl) (by decide)).trans ?_
  refine (lazyStar_step (by rfl) (by decide)).trans ?_
  apply lazyStar_stop
  show (if isQA '?' = true then matchStr ("v=".data) ("v=".data ++ idl) capture11 else none)
    = some idl
  rw [if_pos (by decide), matchStr_append, hcap]

theorem gemAlt_watch_some {idl : List Char} (hcap : capture11 idl = some idl)
    (hidl : ∀ c ∈ idl, c ≠ '/') :
    mre gemAltRe ("youtube.com/watch?v=".data ++ idl) capture11 = some idl := by
  rw [show gemAltRe = .alt (.seq (.str ("youtube.com/".data)) gemTailRe)
    (.str ("youtu.be/".data)) from rfl, mre_alt_eq]
  have h1 : mre (.seq (.str ("youtube.com/".data)) gemTailRe)
      ("youtube.com/watch?v=".data ++ idl) capture11 = some idl := by
    show matchStr ("youtube.com/".data) ("youtube.com/".data ++ ("watch?v=".data ++ idl))
      (fun t => mre gemTailRe t capture11) = some idl
    rw [matchStr_append]
    show mre gemTailRe ("watch?v=".data ++ idl) capture11 = some idl
    exact gemTail_watch_some hcap hidl
  rw [h1]
  rfl

theorem jsSearch_gem_watch {idl : List Char} (h : valid11 idl) :
    jsSearch geminiPrefixRe ("https://www.youtube.com/watch?v=".data ++ idl) = some idl := by
  have hidl := valid11_no_slash h
  apply searchAux_of_mre_some
  show mre protoRe ("https://www.youtube.com/watch?v=".data ++ idl)
    (fun t => mre (.seq wwwRe gemAltRe) t capture11) = some idl
  rw [show protoRe = .opt protoInnerRe from rfl, mre_opt_eq]
  show (mre protoInnerRe ("https://".data ++ ("www.youtube.com/watch?v=".data ++ idl))
      (fun t => mre (.seq wwwRe gemAltRe) t capture11) <|>
    mre (.seq wwwRe gemAltRe) ("https://www.youtube.com/watch?v=".data ++ idl) capture11) = some idl
  rw [mre_protoInner_https]
  have harm : mre (.seq wwwRe gemAltRe) ("www.youtube.com/watch?v=".data ++ idl) capture11
      = some idl := by
    show mre wwwRe ("www.youtube.com/watch?v=".data ++ idl)
      (fun t => mre gemAltRe t capture11) = some idl
    rw [show wwwRe = .opt (.str ("www.".data)) from rfl, mre_opt_eq]
    show (matchStr ("www.".data) ("www.".data ++ ("youtube.com/watch?v=".data ++ idl))
        (fun t => mre gemAltRe t capture11) <|>
      mre gemAltRe ("www.youtube.com/watch?v=".data ++ idl) capture11) = some idl
    rw [matchStr_append]
    show (mre gemAltRe ("youtube.com/watch?v=".data ++ idl) capture11 <|>
      mre gemAltRe ("www.youtube.com/watch?v=".data ++ idl) capture11) = some idl
    rw [gemAlt_watch_some (capture11_exact h) hidl]
    rfl
  show (mre (.seq wwwRe gemAltRe) ("www.youtube.com/watch?v=".data ++ idl) capture11 <|>
    mre (.seq wwwRe gemAltRe) ("https://www.youtube.com/watch?v=".data ++ idl) capture11) = some idl
  rw [harm]
  rfl

theorem gemTail_embed_some {idl : List Char} (hcap : capture11 idl = some idl)
    (hidl : ∀ c ∈ idl, c ≠ '/') :
    mre gemTailRe ("embed/".data ++ idl) capture11 = some idl := by
  rw [show gemTailRe = .alt gemA1aRe (.alt gemA1bRe gemA1cRe) from rfl, mre_alt_eq,
    show gemA1aRe = .seq (.plus notSlashWs)
      (.seq (.cls isSlash) (.seq (.plus nonWs) (.cls isSlash))) from rfl,
    show ("embed/".data ++ idl) = ("embed".data ++ '/' :: idl) from rfl,
    plus_slash_plus_slashZ_fail notSlashWs nonWs (.cls isSlash) (Or.inl rfl)
      ("embed".data) idl capture11 (by decide) hidl,
    orElse_none_left, mre_alt_eq]
  have hb : mre gemA1bRe ("embed".data ++ '/' :: idl) capture11 = some idl := by
    show mre vembedRe ("embed".data ++ '/' :: idl)
      (fun t => mre (.cls isSlash) t capture11) = some idl
    rw [show vembedRe = .alt (.str ("v".data))
        (.seq (.str ("e".data)) (.opt (.str ("mbed".data)))) from rfl, mre_alt_eq,
      show mre (.str ("v".data)) ("embed".data ++ '/' :: idl)
        (fun t => mre (.cls isSlash) t capture11) = none from rfl,
      orElse_none_left]
    show matchStr ("e".data) ("e".data ++ ("mbed".data ++ '/' :: idl))
      (fun t => mre (.opt (.str ("mbed".data))) t (fun u => mre (.cls isSlash) u capture11))
      = some idl
    rw [matchStr_append]
    apply mre_opt_some
    show matchStr ("mbed".data) ("mbed".data ++ ('/' :: idl))
      (fun u => mre (.cls isSlash) u capture11) = some idl
    rw [matchStr_append]
    show (if isSlash '/' = true then capture11 idl else none) = some idl
    rw [if_pos (by decide), hcap]
  rw [hb]
  rfl

theorem gemAlt_embed_some {idl : List Char} (hcap : capture11 idl = some idl)
    (hidl : ∀ c ∈ idl, c ≠ '/') :
    mre gemAltRe ("youtube.com/embed/".data ++ idl) capture11 = some idl := by
  rw [show gemAltRe = .alt (.seq (.str ("youtube.com/".data)) gemTailRe)
    (.str ("youtu.be/".data)) from rfl, mre_alt_eq]
  have h1 : mre (.seq (.str ("youtube.com/".data)) gemTailRe)
      ("youtube.com/embed/".data ++ idl) capture11 = some idl := by
    show matchStr ("youtube.com/".data) ("youtube.com/".data ++ ("embed/".data ++ idl))
      (fun t => mre gemTailRe t capture11) = some idl
    rw [matchStr_append]
    show mre gemTailRe ("embed/".data ++ idl) capture11 = some idl
    exact gemTail_embed_some hcap hidl
  rw [h1]
  rfl

theorem jsSearch_gem_embed {idl : List Char} (h : valid11 idl) :
    jsSearch geminiPrefixRe ("https://www.youtube.com/embed/".data ++ idl) = some idl := by
  have hidl := valid11_no_slash h
  apply searchAux_of_mre_some
  show mre protoRe ("https://www.youtube.com/embed/".data ++ idl)
    (fun t => mre (.seq wwwRe gemAltRe) t capture11) = some idl
  rw [show protoRe = .opt protoInnerRe from rfl, mre_opt_eq]
  show (mre protoInnerRe ("https://".data ++ ("www.youtube.com/embed/".data ++ idl))
      (fun t => mre (.seq wwwRe gemAltRe) t capture11) <|>
    mre (.seq wwwRe gemAltRe) ("https://www.youtube.com/embed/".data ++ idl) capture11) = some idl
  rw [mre_protoInner_https]
  have harm : mre (.seq wwwRe gemAltRe) ("www.youtube.com/embed/".data ++ idl) capture11
      = some idl := by
    show mre wwwRe ("www.youtube.com/embed/".data ++ idl)
      (fun t => mre gemAltRe t capture11) = some idl
    rw [show wwwRe = .opt (.str ("www.".data)) from rfl, mre_opt_eq]
    show (matchStr ("www.".data) ("www.".data ++ ("youtube.com/embed/".data ++ idl))
        (fun t => mre gemAltRe t capture11) <|>
      mre gemAltRe ("www.youtube.com/embed/".data ++ idl) capture11) = some idl
    rw [matchStr_append]
    show (mre gemAltRe ("youtube.com/embed/".data ++ idl) capture11 <|>
      mre gemAltRe ("www.youtube.com/embed/".data ++ idl) capture11) = some idl
    rw [gemAlt_embed_some (capture11_exact h) hidl]
    rfl
  show (mre (.seq wwwRe gemAltRe) ("www.youtube.com/embed/".data ++ idl) capture11 <|>
    mre (.seq wwwRe gemAltRe) ("https://www.youtube.com/embed/".data ++ idl) capture11) = some idl
  rw [harm]
  rfl

theorem extractVideoId_idem (s : List Char) :
    ApiService.extractVideoId (ApiService.extractVideoId s) = ApiService.extractVideoId s := by
  cases h : jsSearch apiPrefixRe s with
  | some r =>
    have hs : ApiService.extractVideoId s = r := by simp [ApiService.extractVideoId, h]
    rw [hs]
    rcases jsSearch_api_shape h with ⟨_, hall⟩
    have hnone : jsSearch apiPrefixRe r = none :=
      jsSearch_api_none r fun c hc => ⟨idChar_ne_slash (hall c hc), idChar_ne_qmark (hall c hc)⟩
    simp [ApiService.extractVideoId, hnone,
      trimChars_of_no_ws fun c hc => idChar_not_ws (hall c hc)]
  | none =>
    have hs : ApiService.extractVideoId s = trimChars s := by
      simp [ApiService.extractVideoId, h]
    rw [hs]
    have hnone := jsSearch_api_trim_none h
    simp [ApiService.extractVideoId, hnone, trimChars_idem]

/-! Object-field lemmas. -/

theorem getKey_setKey (fs : List (List Char × Json)) (key : List Char) (v : Json) :
    getKey (setKey fs key v) key = some v := by
  induction fs with
  | nil => simp [setKey, getKey]
  | cons kv fs ih =>
    obtain ⟨k, w⟩ := kv
    by_cases hk : k = key
    · simp [setKey, getKey, hk]
    · simp [setKey, getKey, hk, ih]

theorem get_jsSpreadSet (j : Json) (key : List Char) (v : Json) :
    (jsSpreadSet j key v).get key = some v := by
  cases j <;> simp [jsSpreadSet, Json.get, getKey_setKey, getKey]

/-! Claim theorems. -/

/-- Claim C1, counterexample: the controller as wired (apiService provider)
stores the provider response unchanged, so a well-formed success body whose
video_id is XYZ123 is stored verbatim even though the locally computed
identifier of the submission ABC456 is ABC456. -/
theorem C1_http_passthrough_counterexample :
    (handleSubmit ⟨"ABC456".data, .IDLE, none, none⟩ (.response 200 (.ok bodyXYZ))).1.status
      = .SUCCESS
    ∧ ApiService.extractVideoId ("ABC456".data) = "ABC456".data
    ∧ ((handleSubmit ⟨"ABC456".data, .IDLE, none, none⟩ (.response 200 (.ok bodyXYZ))).1.data.bind
        (fun j => j.get ("video_id".data))) = some (.str ("XYZ123".data))
    ∧ some (Json.str ("XYZ123".data)) ≠ some (Json.str ("ABC456".data)) := by
  refine ⟨rfl, rfl, rfl, ?_⟩
  intro hEq
  simp only [Option.some.injEq, Json.str.injEq] at hEq
  exact absurd hEq (by decide)

/-- Claim C1, amended: forcing video_id to the locally computed identifier
happens only in the generative implementation; the HTTP implementation used
by the app returns, and the controller stores, the provider body unchanged,
video_id included. -/
theorem C1_video_id_amended :
    (∀ (videoUrl : List Char) (data : Json),
      ∃ r, GeminiService.analyzeVideoSentiment videoUrl (.text (.ok data)) = .ok r ∧
        r.get ("video_id".data) = some (.str (GeminiService.geminiVideoId videoUrl)))
    ∧ (∀ (s : AppState) (status : Nat) (j : Json), resOk status = true → trimChars s.url ≠ [] →
        (handleSubmit s (.response status (.ok j))).1.status = .SUCCESS ∧
        (handleSubmit s (.response status (.ok j))).1.data = some j) := by
  constructor
  · intro videoUrl data
    exact ⟨jsSpreadSet data ("video_id".data) (.str (GeminiService.geminiVideoId videoUrl)),
      rfl, get_jsSpreadSet data _ _⟩
  · intro s status j h1 h2
    have hp : ApiService.analyzeVideoSentiment s.url (.response status (.ok j)) = .ok j := by
      simp [ApiService.analyzeVideoSentiment, h1]
    constructor <;> simp [handleSubmit, h2, hp]

/-- Claim C2, counterexample: a response of status 200 whose payload parses
as JSON but is missing every required field of AnalysisResult still drives
the controller to SUCCESS, not to the Error state the claim requires. -/
theorem C2_missing_fields_counterexample :
    (handleSubmit ⟨"abc".data, .IDLE, none, none⟩ (.response 200 (.ok (.obj [])))).1.status
      = .SUCCESS
    ∧ AnalysisStatus.SUCCESS ≠ AnalysisStatus.ERROR := by
  exact ⟨rfl, by decide⟩

/-- Claim C2, amended: a payload that does not parse as JSON drives the
controller to the Error state with the generic message, but a payload that
parses with required fields missing is not detected: the controller
transitions to SUCCESS with that payload. -/
theorem C2_malformed_response_amended :
    (∀ (s : AppState) (status : Nat) (m : List Char), trimChars s.url ≠ [] → resOk status = true →
      (handleSubmit s (.response status (.error m))).1.status = .ERROR ∧
      (handleSubmit s (.response status (.error m))).1.error = some errorMessage)
    ∧ (∀ (s : AppState) (status : Nat) (j : Json), trimChars s.url ≠ [] → resOk status = true →
      (handleSubmit s (.response status (.ok j))).1.status = .SUCCESS) := by
  constructor
  · intro s status m h1 h2
    have hp : ApiService.analyzeVideoSentiment s.url (.response status (.error m)) = .error m := by
      simp [ApiService.analyzeVideoSentiment, h2]
    constructor <;> simp [handleSubmit, h1, hp]
  · intro s status j h1 h2
    have hp : ApiService.analyzeVideoSentiment s.url (.response status (.ok j)) = .ok j := by
      simp [ApiService.analyzeVideoSentiment, h2]
    simp [handleSubmit, h1, hp]

/-- Claim C3, counterexample: for the spec scenario (status 200, body with
score, label, components and model_accuracy but no video_id, submission
whose normalized identifier is abc), the stored result has no video_id
field at all, rather than video_id equal to abc. -/
theorem C3_video_id_not_injected_counterexample :
    ((handleSubmit ⟨"abc".data, .IDLE, none, none⟩ (.response 200 (.ok bodyC3))).1.data.bind
      (fun j => j.get ("video_id".data))) = none
    ∧ ApiService.extractVideoId ("abc".data) = "abc".data
    ∧ (none : Option Json) ≠ some (.str ("abc".data)) := by
  exact ⟨rfl, rfl, fun h => Option.noConfusion h⟩

/-- Claim C3, amended: on that scenario the final state is SUCCESS and the
stored result is the body exactly as returned, still without any video_id
field; the locally computed identifier abc is not injected. -/
theorem C3_success_without_video_id :
    (handleSubmit ⟨"abc".data, .IDLE, none, none⟩ (.response 200 (.ok bodyC3))).1.status = .SUCCESS
    ∧ (handleSubmit ⟨"abc".data, .IDLE, none, none⟩ (.response 200 (.ok bodyC3))).1.data
      = some bodyC3
    ∧ bodyC3.get ("video_id".data) = none := by
  exact ⟨rfl, rfl, rfl⟩

/-- Claim C4, counterexample: on the bare-identifier scenario input the
generative implementation normalizes to unknown, not to the trimmed input
the claim requires of both implementations. -/
theorem C4_gemini_unknown_counterexample :
    GeminiService.geminiVideoId ("  Ks-_Mh1QhMc  ".data) = "unknown".data
    ∧ ApiService.extractVideoId ("  Ks-_Mh1QhMc  ".data) = "Ks-_Mh1QhMc".data
    ∧ "unknown".data ≠ "Ks-_Mh1QhMc".data := by
  exact ⟨rfl, rfl, by decide⟩

/-- Claim C4, amended: for every input made only of identifier characters
and whitespace (no URL structure), the HTTP implementation returns the
trimmed input unchanged, while the generative implementation instead
returns unknown; the scenario value holds for the HTTP implementation. -/
theorem C4_bare_identifier_amended :
    (∀ s : List Char, (∀ c ∈ s, idChar c = true ∨ jsWs c = true) →
      ApiService.extractVideoId s = trimChars s
      ∧ GeminiService.geminiVideoId s = "unknown".data)
    ∧ ApiService.extractVideoId ("  Ks-_Mh1QhMc  ".data) = "Ks-_Mh1QhMc".data := by
  constructor
  · intro s hs
    have hns : ∀ c ∈ s, c ≠ '/' ∧ c ≠ '?' := by
      intro c hc
      rcases hs c hc with h | h
      · exact ⟨idChar_ne_slash h, idChar_ne_qmark h⟩
      · exact ⟨jsWs_ne_slash h, jsWs_ne_qmark h⟩
    exact ⟨extractVideoId_plain s hns, geminiVideoId_plain s (fun c hc => (hns c hc).1)⟩
  · rfl

/-- Claim C5, counterexample: the generative implementation is not
idempotent: the scenario URL normalizes to its identifier, and normalizing
that identifier again yields unknown. -/
theorem C5_gemini_not_idempotent_counterexample :
    GeminiService.geminiVideoId (GeminiService.geminiVideoId ("https://youtu.be/Ks-_Mh1QhMc".data))
      = "unknown".data
    ∧ GeminiService.geminiVideoId ("https://youtu.be/Ks-_Mh1QhMc".data) = "Ks-_Mh1QhMc".data
    ∧ "unknown".data ≠ "Ks-_Mh1QhMc".data := by
  exact ⟨rfl, rfl, by decide⟩

/-- Claim C5, amended: normalization is idempotent for the HTTP
implementation, for every input. -/
theorem C5_idempotent_http_amended (s : List Char) :
    ApiService.extractVideoId (ApiService.extractVideoId s) = ApiService.extractVideoId s :=
  extractVideoId_idem s

/-- Claim C6: on the three canonical URL shapes (watch, shortened, embed)
with any eleven-character identifier from the identifier class, both
implementations extract exactly that identifier segment; moreover, on
every input either regex matches at all, the value extracted is exactly an
eleven-character segment of identifier characters. -/
theorem C6_url_extraction (idl : List Char) (h : valid11 idl) :
    ApiService.extractVideoId ("https://www.youtube.com/watch?v=".data ++ idl) = idl
    ∧ ApiService.extractVideoId ("https://youtu.be/".data ++ idl) = idl
    ∧ ApiService.extractVideoId ("https://www.youtube.com/embed/".data ++ idl) = idl
    ∧ GeminiService.geminiVideoId ("https://www.youtube.com/watch?v=".data ++ idl) = idl
    ∧ GeminiService.geminiVideoId ("https://youtu.be/".data ++ idl) = idl
    ∧ GeminiService.geminiVideoId ("https://www.youtube.com/embed/".data ++ idl) = idl
    ∧ (∀ s r, jsSearch apiPrefixRe s = some r →
        ApiService.extractVideoId s = r ∧ valid11 r)
    ∧ (∀ s r, jsSearch geminiPrefixRe s = some r →
        GeminiService.geminiVideoId s = r ∧ valid11 r) := by
  refine ⟨?_, ?_, ?_, ?_, ?_, ?_, ?_, ?_⟩
  · unfold ApiService.extractVideoId
    rw [jsSearch_api_watch h]
  · unfold ApiService.extractVideoId
    rw [jsSearch_api_short h]
  · unfold ApiService.extractVideoId
    rw [jsSearch_api_embed h]
  · unfold GeminiService.geminiVideoId
    rw [jsSearch_gem_watch h]
  · unfold GeminiService.geminiVideoId
    rw [jsSearch_gem_short h]
  · unfold GeminiService.geminiVideoId
    rw [jsSearch_gem_embed h]
  · intro s r hr
    rcases jsSearch_api_shape hr with ⟨hlen, hall⟩
    refine ⟨?_, hlen, List.all_eq_true.mpr hall⟩
    unfold ApiService.extractVideoId
    rw [hr]
  · intro s r hr
    rcases jsSearch_gemini_shape hr with ⟨hlen, hall⟩
    refine ⟨?_, hlen, List.all_eq_true.mpr hall⟩
    unfold GeminiService.geminiVideoId
    rw [hr]

/-- Claim C6, witness: the scenario input yields the scenario identifier. -/
theorem C6_url_extraction_witness :
    ApiService.extractVideoId ("https://youtu.be/".data ++ "Ks-_Mh1QhMc".data)
      = "Ks-_Mh1QhMc".data ∧
    GeminiService.geminiVideoId ("https://youtu.be/".data ++ "Ks-_Mh1QhMc".data)
      = "Ks-_Mh1QhMc".data := by
  have h := C6_url_extraction ("Ks-_Mh1QhMc".data) (by decide)
  exact ⟨h.2.1, h.2.2.2.2.1⟩

/-- Claim C7: submitting while the trimmed url is empty returns the state
unchanged and issues no provider call. -/
theorem C7_empty_submit_noop (s : AppState) (out : HttpOutcome) (h : trimChars s.url = []) :
    handleSubmit s out = (s, false) := by
  simp [handleSubmit, h]

/-- Claim C7, witness: a whitespace-only url is a no-op. -/
theorem C7_empty_submit_noop_witness :
    handleSubmit ⟨"   ".data, .IDLE, none, none⟩ (.response 200 (.ok (.obj [])))
      = (⟨"   ".data, .IDLE, none, none⟩, false) :=
  C7_empty_submit_noop ⟨"   ".data, .IDLE, none, none⟩ (.response 200 (.ok (.obj [])))
    (by decide)

/-- Claim C8: every failing provider outcome (network rejection or non-2xx
status) is caught: the controller ends in ERROR with the non-empty generic
message, which never equals the thrown Backend error text. -/
theorem C8_failure_to_error (s : AppState) (out : HttpOutcome) (h : trimChars s.url ≠ [])
    (hfail : (∃ m, out = .reject m)
      ∨ ∃ status body, out = .response status body ∧ resOk status = false) :
    (handleSubmit s out).1.status = .ERROR
    ∧ (handleSubmit s out).1.error = some errorMessage
    ∧ errorMessage ≠ []
    ∧ ∀ st : Nat, errorMessage ≠ "Backend error ".data ++ (Nat.repr st).data := by
  have herr : ∃ m, ApiService.analyzeVideoSentiment s.url out = .error m := by
    rcases hfail with ⟨m, rfl⟩ | ⟨status, body, rfl, hstat⟩
    · exact ⟨m, rfl⟩
    · exact ⟨"Backend error ".data ++ (Nat.repr status).data,
        by simp [ApiService.analyzeVideoSentiment, hstat]⟩
  obtain ⟨m, hm⟩ := herr
  refine ⟨?_, ?_, by decide, ?_⟩
  · simp [handleSubmit, h, hm]
  · simp [handleSubmit, h, hm]
  · intro st hEq
    have h1 : errorMessage.head? = ("Backend error ".data ++ (Nat.repr st).data).head? := by
      rw [hEq]
    have h2 : ("Backend error ".data ++ (Nat.repr st).data).head? = some 'B' := rfl
    have h3 : errorMessage.head? = some 'F' := rfl
    rw [h2, h3] at h1
    exact absurd (Option.some.inj h1) (by decide)

/-- Claim C8, witness: a 500 response on a non-empty submission ends in
ERROR with the generic message. -/
theorem C8_failure_to_error_witness :
    (handleSubmit ⟨"abc".data, .IDLE, none, none⟩ (.response 500 (.ok (.obj [])))).1.status
      = .ERROR
    ∧ (handleSubmit ⟨"abc".data, .IDLE, none, none⟩ (.response 500 (.ok (.obj [])))).1.error
      = some errorMessage := by
  have h := C8_failure_to_error ⟨"abc".data, .IDLE, none, none⟩
    (.response 500 (.ok (.obj []))) (by decide) (Or.inr ⟨500, .ok (.obj []), rfl, by decide⟩)
  exact ⟨h.1, h.2.1⟩

/-- Claim C9, counterexample: on a bare identifier the two implementations
disagree: the HTTP one returns the trimmed input, the generative one
returns unknown. -/
theorem C9_fallback_counterexample :
    ApiService.extractVideoId ("Ks-_Mh1QhMc".data) = "Ks-_Mh1QhMc".data
    ∧ GeminiService.geminiVideoId ("Ks-_Mh1QhMc".data) = "unknown".data
    ∧ "Ks-_Mh1QhMc".data ≠ "unknown".data := by
  exact ⟨rfl, rfl, by decide⟩

/-- Claim C9, amended: the two normalizations agree on the three canonical
URL shapes for every valid identifier; they differ on inputs the regexes
do not match, where the HTTP implementation falls back to the trimmed
input and the generative one to unknown. -/
theorem C9_agreement_on_urls (idl : List Char) (h : valid11 idl) :
    ApiService.extractVideoId ("https://www.youtube.com/watch?v=".data ++ idl)
      = GeminiService.geminiVideoId ("https://www.youtube.com/watch?v=".data ++ idl)
    ∧ ApiService.extractVideoId ("https://youtu.be/".data ++ idl)
      = GeminiService.geminiVideoId ("https://youtu.be/".data ++ idl)
    ∧ ApiService.extractVideoId ("https://www.youtube.com/embed/".data ++ idl)
      = GeminiService.geminiVideoId ("https://www.youtube.com/embed/".data ++ idl) := by
  refine ⟨?_, ?_, ?_⟩
  · unfold ApiService.extractVideoId GeminiService.geminiVideoId
    rw [jsSearch_api_watch h, jsSearch_gem_watch h]
  · unfold ApiService.extractVideoId GeminiService.geminiVideoId
    rw [jsSearch_api_short h, jsSearch_gem_short h]
  · unfold ApiService.extractVideoId GeminiService.geminiVideoId
    rw [jsSearch_api_embed h, jsSearch_gem_embed h]

/-- Claim C9, witness: agreement on the scenario shortened URL. -/
theorem C9_agreement_on_urls_witness :
    ApiService.extractVideoId ("https://youtu.be/".data ++ "Ks-_Mh1QhMc".data)
      = GeminiService.geminiVideoId ("https://youtu.be/".data ++ "Ks-_Mh1QhMc".data) :=
  (C9_agreement_on_urls ("Ks-_Mh1QhMc".data) (by decide)).2.1

theorem pending_iff_loading (s : MachineState) (h : MReachable s) :
    s.pending.isSome = true ↔ s.app.status = .LOADING := by
  induction h with
  | init => simp [initialState]
  | step hr hstep ih =>
    cases hstep with
    | edit u => exact ih
    | submitEmpty h => exact ih
    | submitStart h1 h2 => simp
    | resolveOk u out j h1 h2 => simp
    | resolveErr u out m h1 h2 => simp

/-- Claim C10: the machine starts at IDLE; a reachable step that lands in
SUCCESS or ERROR either leaves the status unchanged or comes from LOADING;
LOADING is entered only by a submit whose trimmed url is non-empty,
recording exactly that one url as the pending call; and in every reachable
state there is an outstanding call exactly while the status is LOADING, so
two in-flight calls never exist, and a resolution writes the outcome of
the single pending call. -/
theorem C10_state_machine :
    ((⟨initialState, none⟩ : MachineState).app.status = .IDLE)
    ∧ (∀ (s : MachineState) (l : MLabel) (s' : MachineState), MReachable s → MStep s l s' →
        (s'.app.status = .SUCCESS ∨ s'.app.status = .ERROR) →
        s'.app.status = s.app.status ∨ s.app.status = .LOADING)
    ∧ (∀ (s : MachineState) (l : MLabel) (s' : MachineState), MStep s l s' →
        s'.app.status = .LOADING →
        s.app.status = .LOADING
        ∨ (l = .submit ∧ trimChars s.app.url ≠ [] ∧ s'.pending = some s.app.url))
    ∧ (∀ s : MachineState, MReachable s → (s.pending.isSome = true ↔ s.app.status = .LOADING)) := by
  refine ⟨rfl, ?_, ?_, ?_⟩
  · intro s l s' hreach hstep hss
    cases hstep with
    | edit u => exact Or.inl rfl
    | submitEmpty h => exact Or.inl rfl
    | submitStart h1 h2 => rcases hss with h | h <;> simp at h
    | resolveOk u out j h1 h2 =>
      exact Or.inr ((pending_iff_loading s hreach).mp (by rw [h1]; rfl))
    | resolveErr u out m h1 h2 =>
      exact Or.inr ((pending_iff_loading s hreach).mp (by rw [h1]; rfl))
  · intro s l s' hstep hl
    cases hstep with
    | edit u => exact Or.inl hl
    | submitEmpty h => exact Or.inl hl
    | submitStart h1 h2 => exact Or.inr ⟨rfl, h1, rfl⟩
    | resolveOk u out j h1 h2 => simp at hl
    | resolveErr u out m h1 h2 => simp at hl
  · exact pending_iff_loading

end Sentiview
